import Mathlib

/-!
# ECDSA nonce setup, signing and verification (`crypto/ecdsa/ecs_ossl.c`)

A shallow embedding of the three methods of `openssl_ecdsa_meth`:
`ecdsa_sign_setup`, `ecdsa_do_sign` and `ecdsa_do_verify`.

Conventions of the embedding.

* A `BIGNUM` is an `Int`; a pointer that may be `NULL` is an `Option`.
* The big-number and curve libraries are not part of the file.  Calls whose
  result the file tests and that can fail on their arguments (`BN_nnmod`,
  `BN_mod_mul`, `BN_mod_inverse`, `EC_GROUP_get_order`, `EC_POINT_mul`, the
  affine-coordinate getters, `BN_rand_range`) are parameters returning an
  `Option`: `none` is the failure the file tests for.
* Calls that only fail for want of memory (`BN_CTX_new`, `BN_new`,
  `EC_POINT_new`, `ECDSA_SIG_new`, `BN_bin2bn`, `BN_add`, `BN_sub`, `BN_copy`)
  always succeed: the heap is not part of the embedding.
* The random source is the list of the results of the successive
  `BN_rand_range` calls; a call that finds the list empty cannot proceed and
  the run is `Run.starved`.
* `ECDSAerr` appends to the list of errors a call reports.
-/

namespace EcsOssl

/-! ## Data model -/

/-- Function codes passed to `ECDSAerr`. -/
inductive ErrFunc where
  | ECDSA_F_ECDSA_SIGN_SETUP
  | ECDSA_F_ECDSA_DO_SIGN
  | ECDSA_F_ECDSA_DO_VERIFY
  deriving DecidableEq

/-- Reason codes passed to `ECDSAerr`. -/
inductive ErrReason where
  | ERR_R_PASSED_NULL_PARAMETER
  | ERR_R_MALLOC_FAILURE
  | ERR_R_BN_LIB
  | ERR_R_EC_LIB
  | ERR_R_ECDSA_LIB
  | ECDSA_R_RANDOM_NUMBER_GENERATION_FAILED
  | ECDSA_R_DATA_TOO_LARGE_FOR_KEY_SIZE
  | ECDSA_R_MISSING_PARAMETERS
  | ECDSA_R_BAD_SIGNATURE
  deriving DecidableEq

/-- One `ECDSAerr(f, r)` entry of the error queue. -/
abbrev ErrEntry := ErrFunc × ErrReason

/-- The fallible modular arithmetic of the big-number library, as the file
calls it: `BN_nnmod(r, a, m, ctx)`, `BN_mod_mul(r, a, b, m, ctx)` and
`BN_mod_inverse(NULL, a, n, ctx)`; `none` is the zero / `NULL` return. -/
structure BN_LIB where
  BN_nnmod : Int → Int → Option Int
  BN_mod_mul : Int → Int → Int → Option Int
  BN_mod_inverse : Int → Int → Option Int

/-- The curve group object `EC_GROUP` with the operations the file invokes on
it.  `EC_POINT_mul n q m` is `EC_POINT_mul(group, r, n, q, m, ctx)`, the point
`n*G + m*q` with `NULL` arguments as `none`; `field_type` is
`EC_METHOD_get_field_type(EC_GROUP_method_of(group))`. -/
structure EC_GROUP (Pt : Type) where
  EC_GROUP_get_order : Option Nat
  field_type : Nat
  EC_POINT_mul : Option Int → Option Pt → Option Int → Option Pt
  EC_POINT_get_affine_coordinates_GFp : Pt → Option Int
  EC_POINT_get_affine_coordinates_GF2m : Pt → Option Int

/-- The per-key `ECDSA_DATA`: the one-shot nonce cache `(kinv, r)`. -/
structure ECDSA_DATA where
  kinv : Option Int
  r : Option Int
  deriving DecidableEq

/-- The key object `EC_KEY`: group, public point, private scalar, and the
`ECDSA_DATA` attached to it (what `ecdsa_check` finds). -/
structure EC_KEY (Pt : Type) where
  group : Option (EC_GROUP Pt)
  pub_key : Option Pt
  priv_key : Option Int
  meth_data : Option ECDSA_DATA

/-- The signature container `ECDSA_SIG`. -/
structure ECDSA_SIG where
  r : Int
  s : Int
  deriving DecidableEq

/-- Outcome of running a call against a finite list of random draws: the call
returned, or it asked for a draw when none was left. -/
inductive Run (α : Type) where
  | done (a : α)
  | starved
  deriving DecidableEq

/-! ## Library helpers with no failure mode of their own -/

/-- Modelled from the spec: the value of `NID_X9_62_prime_field` from
`openssl/obj_mac.h`, the tag of the prime-field strategy in the spec's
"dispatch between prime-field and binary-field representations". -/
def NID_X9_62_prime_field : Nat := 406

/-- Modelled from the spec: `BN_is_zero` of the big-integer collaborator. -/
def BN_is_zero (a : Int) : Bool := decide (a = 0)

/-- Modelled from the spec: `BN_get_sign`, true for a negative number. -/
def BN_get_sign (a : Int) : Bool := decide (a < 0)

/-- Modelled from the spec: `BN_cmp`, the signed comparison (-1, 0 or 1). -/
def BN_cmp (a b : Int) : Int := if a < b then -1 else if a = b then 0 else 1

/-- Modelled from the spec: `BN_ucmp`, the comparison of absolute values. -/
def BN_ucmp (a b : Int) : Int :=
  if a.natAbs < b.natAbs then -1 else if a.natAbs = b.natAbs then 0 else 1

/-- Modelled from the spec: `BN_add`. -/
def BN_add (a b : Int) : Int := a + b

/-- Modelled from the spec: `BN_sub`. -/
def BN_sub (a b : Int) : Int := a - b

/-- Number of binary digits of `a`, by halving at most `fuel` times. -/
def numBitsAux : Nat → Nat → Nat
  | 0, _ => 0
  | fuel + 1, a => if a = 0 then 0 else numBitsAux fuel (a / 2) + 1

/-- Modelled from the spec: `BN_num_bits`, the bit length of the magnitude. -/
def BN_num_bits (a : Int) : Nat := numBitsAux a.natAbs a.natAbs

/-- Modelled from the spec: `BN_num_bytes`, the "byte-length query":
`(BN_num_bits(a) + 7) / 8`. -/
def BN_num_bytes (a : Int) : Nat := (BN_num_bits a + 7) / 8

/-- Modelled from the spec: `BN_bin2bn`, the "big-endian byte-string import":
the bytes read as an unsigned big-endian integer. -/
def BN_bin2bn (dgst : List (Fin 256)) : Int :=
  dgst.foldl (fun acc b => acc * 256 + (b.val : Int)) 0

/-- Modelled from the spec: `ecdsa_check`, which yields the `ECDSA_DATA`
attached to the key ("the one-shot nonce-cache slot" of the key object). -/
def ecdsa_check {Pt : Type} (eckey : Option (EC_KEY Pt)) : Option ECDSA_DATA :=
  match eckey with
  | none => none
  | some key => key.meth_data

/-! ## `ecdsa_sign_setup` (lines 85-214) -/

/-- How the `do ... while (BN_is_zero(r))` loop of `ecdsa_sign_setup` ends. -/
inductive Drawn where
  | pair (k r : Int)
  | fail (e : ErrReason)
  deriving DecidableEq

/-- Lines 134-180.  The outer loop body begins with the inner redraw loop, so
both `while` conditions send control back to the next `BN_rand_range`: draw
`k`; on a zero `k` draw again; compute `r = x(k*G) mod order`; on a zero `r`
draw again.  The second component is the list of draws left. -/
def sign_setup_loop {Pt : Type} (B : BN_LIB) (group : EC_GROUP Pt) (order : Int) :
    List (Option Int) → Run (Drawn × List (Option Int))
  | [] => Run.starved
  | none :: rest =>
      Run.done (Drawn.fail ErrReason.ECDSA_R_RANDOM_NUMBER_GENERATION_FAILED, rest)
  | some k :: rest =>
      if BN_is_zero k then sign_setup_loop B group order rest
      else
        match group.EC_POINT_mul (some k) none none with
        | none => Run.done (Drawn.fail ErrReason.ERR_R_EC_LIB, rest)
        | some tmp_point =>
          match (if group.field_type = NID_X9_62_prime_field
                 then group.EC_POINT_get_affine_coordinates_GFp tmp_point
                 else group.EC_POINT_get_affine_coordinates_GF2m tmp_point) with
          | none => Run.done (Drawn.fail ErrReason.ERR_R_EC_LIB, rest)
          | some X =>
            match B.BN_nnmod X order with
            | none => Run.done (Drawn.fail ErrReason.ERR_R_BN_LIB, rest)
            | some r =>
              if BN_is_zero r then sign_setup_loop B group order rest
              else Run.done (Drawn.pair k r, rest)

/-- What `ecdsa_sign_setup` leaves behind: the return value, the contents of
the caller's slots `*kinvp` and `*rp`, the draws left, the errors raised. -/
structure SetupResult where
  ret : Int
  kinvp : Option Int
  rp : Option Int
  rand : List (Option Int)
  err : List ErrEntry
  deriving DecidableEq

/-- `ecdsa_sign_setup(eckey, ctx_in, kinvp, rp)`; `kinvp` and `rp` are the
contents of the two output slots on entry. -/
def ecdsa_sign_setup {Pt : Type} (B : BN_LIB) (eckey : Option (EC_KEY Pt))
    (kinvp rp : Option Int) (rand : List (Option Int)) : Run SetupResult :=
  match eckey with
  | none =>
      Run.done ⟨0, kinvp, rp, rand,
        [(ErrFunc.ECDSA_F_ECDSA_SIGN_SETUP, ErrReason.ERR_R_PASSED_NULL_PARAMETER)]⟩
  | some key =>
    match key.group, key.pub_key, key.priv_key with
    | some group, some _, some _ =>
      match group.EC_GROUP_get_order with
      | none =>
          Run.done ⟨0, kinvp, rp, rand,
            [(ErrFunc.ECDSA_F_ECDSA_SIGN_SETUP, ErrReason.ERR_R_EC_LIB)]⟩
      | some order =>
        match sign_setup_loop B group (order : Int) rand with
        | Run.starved => Run.starved
        | Run.done (Drawn.fail e, rest) =>
            Run.done ⟨0, kinvp, rp, rest, [(ErrFunc.ECDSA_F_ECDSA_SIGN_SETUP, e)]⟩
        | Run.done (Drawn.pair k r, rest) =>
          match B.BN_mod_inverse k (order : Int) with
          | none =>
              Run.done ⟨0, kinvp, rp, rest,
                [(ErrFunc.ECDSA_F_ECDSA_SIGN_SETUP, ErrReason.ERR_R_BN_LIB)]⟩
          | some kinv => Run.done ⟨1, some kinv, some r, rest, []⟩
    | _, _, _ =>
      Run.done ⟨0, kinvp, rp, rand,
        [(ErrFunc.ECDSA_F_ECDSA_SIGN_SETUP, ErrReason.ERR_R_PASSED_NULL_PARAMETER)]⟩

/-- Modelled from the spec: `ECDSA_sign_setup`, the entry point declared in
`ecdsa.h` through which the signer "invoke[s] the generator"; with
`openssl_ecdsa_meth` installed it forwards to `ecdsa_sign_setup`. -/
def ECDSA_sign_setup {Pt : Type} (B : BN_LIB) (eckey : Option (EC_KEY Pt))
    (kinvp rp : Option Int) (rand : List (Option Int)) : Run SetupResult :=
  ecdsa_sign_setup B eckey kinvp rp rand

/-! ## `ecdsa_do_sign` (lines 217-328) -/

/-- The variables the signing loop reads and writes: the key's `ECDSA_DATA`,
the locals `kinv` and `r`, and the draws left. -/
structure SignState where
  ecdsa : ECDSA_DATA
  kinv : Option Int
  r : Option Int
  rand : List (Option Int)
  deriving DecidableEq

/-- How one pass through the body of the signing loop ends. -/
inductive SignStep where
  | again (st : SignState)
  | leave (st : SignState) (r s : Int)
  | err (st : SignState) (e : List ErrEntry)
  | starved
  deriving DecidableEq

/-- Lines 285-291: `s = tmp + m`, then `order` is subtracted once when
`BN_cmp(s, order) > 0`. -/
def sign_sum (tmp m order : Int) : Int :=
  let s := BN_add tmp m
  if BN_cmp s order > 0 then BN_sub s order else s

/-- Lines 280-297, with the pair `(kinv, r)` in hand: `tmp = priv_key*r mod
order`, `s = tmp + m`, one conditional subtraction of `order`, `s = s*kinv mod
order`, then the loop test. -/
def sign_arith (B : BN_LIB) (priv_key order m : Int) (st : SignState)
    (kinv r : Int) : SignStep :=
  match B.BN_mod_mul priv_key r order with
  | none => SignStep.err st [(ErrFunc.ECDSA_F_ECDSA_DO_SIGN, ErrReason.ERR_R_BN_LIB)]
  | some tmp =>
    let s := sign_sum tmp m order
    match B.BN_mod_mul s kinv order with
    | none => SignStep.err st [(ErrFunc.ECDSA_F_ECDSA_DO_SIGN, ErrReason.ERR_R_BN_LIB)]
    | some s => if BN_is_zero s then SignStep.again st else SignStep.leave st r s

/-- Lines 262-297: one pass through the body of the signing loop.  A pair with
a `NULL` half after a successful setup cannot be used by `BN_mod_mul`; that
branch is reported as its failure. -/
def sign_body {Pt : Type} (B : BN_LIB) (eckey : EC_KEY Pt) (priv_key order m : Int)
    (st : SignState) : SignStep :=
  if st.ecdsa.kinv = none ∨ st.ecdsa.r = none then
    match ECDSA_sign_setup B (some eckey) st.kinv st.r st.rand with
    | Run.starved => SignStep.starved
    | Run.done su =>
      if su.ret = 0 then
        SignStep.err ⟨st.ecdsa, su.kinvp, su.rp, su.rand⟩
          (su.err ++ [(ErrFunc.ECDSA_F_ECDSA_DO_SIGN, ErrReason.ERR_R_ECDSA_LIB)])
      else
        match su.kinvp, su.rp with
        | some kinv, some r =>
            sign_arith B priv_key order m ⟨st.ecdsa, su.kinvp, su.rp, su.rand⟩ kinv r
        | _, _ =>
            SignStep.err ⟨st.ecdsa, su.kinvp, su.rp, su.rand⟩
              [(ErrFunc.ECDSA_F_ECDSA_DO_SIGN, ErrReason.ERR_R_BN_LIB)]
  else
    match st.ecdsa.kinv, st.ecdsa.r with
    | some kinv, some r =>
        sign_arith B priv_key order m ⟨⟨none, none⟩, some kinv, some r, st.rand⟩ kinv r
    | _, _ =>
        SignStep.err st [(ErrFunc.ECDSA_F_ECDSA_DO_SIGN, ErrReason.ERR_R_BN_LIB)]

/-- What `ecdsa_do_sign` leaves behind: the returned signature (`none` for
`NULL`), the key's `ECDSA_DATA` after the call, the draws left, the errors. -/
structure SignResult where
  ret : Option ECDSA_SIG
  ecdsa : Option ECDSA_DATA
  rand : List (Option Int)
  err : List ErrEntry
  deriving DecidableEq

/-- Lines 261-310: the `do ... while (BN_is_zero(s))` loop and the packaging
of `(r, s)`; `fuel` bounds the number of passes. -/
def do_sign_loop {Pt : Type} (B : BN_LIB) (eckey : EC_KEY Pt) (priv_key order m : Int) :
    Nat → SignState → Run SignResult
  | 0, _ => Run.starved
  | fuel + 1, st =>
    match sign_body B eckey priv_key order m st with
    | SignStep.starved => Run.starved
    | SignStep.err st1 e => Run.done ⟨none, some st1.ecdsa, st1.rand, e⟩
    | SignStep.leave st1 r s => Run.done ⟨some ⟨r, s⟩, some st1.ecdsa, st1.rand, []⟩
    | SignStep.again st1 => do_sign_loop B eckey priv_key order m fuel st1

/-- `ecdsa_do_sign(dgst, dgst_len, eckey)` with `dgst_len = dgst.length`.
Every pass of the loop after the first consumes a draw, so `rand.length + 2`
passes are never exceeded. -/
def ecdsa_do_sign {Pt : Type} (B : BN_LIB) (dgst : List (Fin 256))
    (eckey : Option (EC_KEY Pt)) (rand : List (Option Int)) : Run SignResult :=
  let ecdsa := ecdsa_check eckey
  match eckey with
  | none =>
      Run.done ⟨none, ecdsa, rand,
        [(ErrFunc.ECDSA_F_ECDSA_DO_SIGN, ErrReason.ERR_R_PASSED_NULL_PARAMETER)]⟩
  | some key =>
    match key.group, key.pub_key, key.priv_key, ecdsa with
    | some group, some _, some priv_key, some data =>
      match group.EC_GROUP_get_order with
      | none =>
          Run.done ⟨none, ecdsa, rand,
            [(ErrFunc.ECDSA_F_ECDSA_DO_SIGN, ErrReason.ERR_R_EC_LIB)]⟩
      | some order =>
        if dgst.length > BN_num_bytes (order : Int) then
          Run.done ⟨none, ecdsa, rand,
            [(ErrFunc.ECDSA_F_ECDSA_DO_SIGN, ErrReason.ECDSA_R_DATA_TOO_LARGE_FOR_KEY_SIZE)]⟩
        else
          let m := BN_bin2bn dgst
          do_sign_loop B key priv_key (order : Int) m (rand.length + 2)
            ⟨data, none, none, rand⟩
    | _, _, _, _ =>
      Run.done ⟨none, ecdsa, rand,
        [(ErrFunc.ECDSA_F_ECDSA_DO_SIGN, ErrReason.ERR_R_PASSED_NULL_PARAMETER)]⟩

/-! ## `ecdsa_do_verify` (lines 330-452) -/

/-- What `ecdsa_do_verify` leaves behind: the return value and the errors. -/
structure VerifyResult where
  ret : Int
  err : List ErrEntry
  deriving DecidableEq

/-- `ecdsa_do_verify(dgst, dgst_len, sig, eckey)` with
`dgst_len = dgst.length`. -/
def ecdsa_do_verify {Pt : Type} (B : BN_LIB) (dgst : List (Fin 256))
    (sig : Option ECDSA_SIG) (eckey : Option (EC_KEY Pt)) : VerifyResult :=
  match eckey, sig with
  | some key, some sig =>
    match key.group, key.pub_key with
    | some group, some pub_key =>
      match group.EC_GROUP_get_order with
      | none => ⟨-1, [(ErrFunc.ECDSA_F_ECDSA_DO_VERIFY, ErrReason.ERR_R_BN_LIB)]⟩
      | some order =>
        if BN_is_zero sig.r || BN_get_sign sig.r || decide (BN_ucmp sig.r order ≥ 0) then
          ⟨0, [(ErrFunc.ECDSA_F_ECDSA_DO_VERIFY, ErrReason.ECDSA_R_BAD_SIGNATURE)]⟩
        else if BN_is_zero sig.s || BN_get_sign sig.s || decide (BN_ucmp sig.s order ≥ 0) then
          ⟨0, [(ErrFunc.ECDSA_F_ECDSA_DO_VERIFY, ErrReason.ECDSA_R_BAD_SIGNATURE)]⟩
        else
          match B.BN_mod_inverse sig.s order with
          | none => ⟨-1, [(ErrFunc.ECDSA_F_ECDSA_DO_VERIFY, ErrReason.ERR_R_BN_LIB)]⟩
          | some u2 =>
            let m := BN_bin2bn dgst
            match B.BN_mod_mul m u2 order with
            | none => ⟨-1, [(ErrFunc.ECDSA_F_ECDSA_DO_VERIFY, ErrReason.ERR_R_BN_LIB)]⟩
            | some u1 =>
              match B.BN_mod_mul sig.r u2 order with
              | none => ⟨-1, [(ErrFunc.ECDSA_F_ECDSA_DO_VERIFY, ErrReason.ERR_R_BN_LIB)]⟩
              | some u2 =>
                match group.EC_POINT_mul (some u1) (some pub_key) (some u2) with
                | none => ⟨-1, [(ErrFunc.ECDSA_F_ECDSA_DO_VERIFY, ErrReason.ERR_R_EC_LIB)]⟩
                | some point =>
                  match (if group.field_type = NID_X9_62_prime_field
                         then group.EC_POINT_get_affine_coordinates_GFp point
                         else group.EC_POINT_get_affine_coordinates_GF2m point) with
                  | none => ⟨-1, [(ErrFunc.ECDSA_F_ECDSA_SIGN_SETUP, ErrReason.ERR_R_EC_LIB)]⟩
                  | some X =>
                    match B.BN_nnmod X order with
                    | none => ⟨-1, [(ErrFunc.ECDSA_F_ECDSA_DO_VERIFY, ErrReason.ERR_R_BN_LIB)]⟩
                    | some u1 => ⟨if BN_ucmp u1 sig.r = 0 then 1 else 0, []⟩
    | _, _ => ⟨-1, [(ErrFunc.ECDSA_F_ECDSA_DO_VERIFY, ErrReason.ECDSA_R_MISSING_PARAMETERS)]⟩
  | _, _ => ⟨-1, [(ErrFunc.ECDSA_F_ECDSA_DO_VERIFY, ErrReason.ECDSA_R_MISSING_PARAMETERS)]⟩

/-! ## Contracts of the collaborators -/

/-- The affine x-coordinate as both `ecdsa_sign_setup` and `ecdsa_do_verify`
fetch it: the getter is chosen by the field type of the group. -/
def affine_x {Pt : Type} (group : EC_GROUP Pt) (P : Pt) : Option Int :=
  if group.field_type = NID_X9_62_prime_field
  then group.EC_POINT_get_affine_coordinates_GFp P
  else group.EC_POINT_get_affine_coordinates_GF2m P

/-- The big-number library returns right results: what `BN_nnmod` and
`BN_mod_mul` return is the non-negative remainder, what `BN_mod_inverse`
returns is an inverse in `[0, |m|)`, and none of them accepts a zero modulus. -/
structure BN_LIB.Sound (B : BN_LIB) : Prop where
  nnmod : ∀ a m r, B.BN_nnmod a m = some r → m ≠ 0 ∧ r = a % m
  mod_mul : ∀ a b m r, B.BN_mod_mul a b m = some r → m ≠ 0 ∧ r = (a * b) % m
  mod_inverse : ∀ a m w, B.BN_mod_inverse a m = some w →
    m ≠ 0 ∧ 0 ≤ w ∧ w < |m| ∧ (a * w) % m = 1 % m

/-- The big-number library does not fail where the result exists: reduction
and product modulo a non-zero modulus, inversion of a number coprime to a
positive modulus. -/
structure BN_LIB.Total (B : BN_LIB) : Prop where
  nnmod : ∀ a m, m ≠ 0 → ∃ r, B.BN_nnmod a m = some r
  mod_mul : ∀ a b m, m ≠ 0 → ∃ r, B.BN_mod_mul a b m = some r
  mod_inverse : ∀ a m, 0 < m → Int.gcd a m = 1 → ∃ w, B.BN_mod_inverse a m = some w

/-- The curve library computes in a commutative group in which the generator
`G` is annihilated by the order `n` it reports: `EC_POINT_mul` with a lone
generator scalar is `k*G`, with both scalars it is `a*G + b*Q`. -/
structure EC_GROUP.Lawful {Pt : Type} [AddCommGroup Pt] (group : EC_GROUP Pt)
    (G : Pt) (n : Nat) : Prop where
  order_eq : group.EC_GROUP_get_order = some n
  order_smul : (n : Int) • G = 0
  mul_gen : ∀ k : Int, group.EC_POINT_mul (some k) none none = some (k • G)
  mul_both : ∀ (a : Int) (Q : Pt) (b : Int),
    group.EC_POINT_mul (some a) (some Q) (some b) = some (a • G + b • Q)

/-- The pair `(kinv, r)` a signing call used when it stopped with the draws
`rest` left over from `rand`: either the pair cached on the key (and then no
draw was consumed), or the pair a successful `ECDSA_sign_setup` stored. -/
def UsedPair {Pt : Type} (B : BN_LIB) (key : EC_KEY Pt) (rand rest : List (Option Int))
    (kinv r : Int) : Prop :=
  (key.meth_data = some ⟨some kinv, some r⟩ ∧ rest = rand) ∨
  (∃ kinvp rp mid, mid <:+ rand ∧
    ECDSA_sign_setup B (some key) kinvp rp mid = Run.done ⟨1, some kinv, some r, rest, []⟩)

/-- The arithmetic of one pass of the signing loop that ends the loop: with
the pair `(kinv, r)`, both modular products succeed and the second one is the
non-zero `s`. -/
def SignedWith (B : BN_LIB) (priv_key order m kinv r s : Int) : Prop :=
  ∃ tmp, B.BN_mod_mul priv_key r order = some tmp ∧
    B.BN_mod_mul (sign_sum tmp m order) kinv order = some s ∧ s ≠ 0

/-- The pair `(kinv, r)` is what a successful `ecdsa_sign_setup` stored in its
output slots, for some key on the group `group` and some draws. -/
def ProducedBySetup {Pt : Type} (B : BN_LIB) (group : EC_GROUP Pt) (kinv r : Int) : Prop :=
  ∃ (key0 : EC_KEY Pt) (kinvp rp : Option Int) (rand0 rest0 : List (Option Int)),
    key0.group = some group ∧
    ecdsa_sign_setup B (some key0) kinvp rp rand0 =
      Run.done ⟨1, some kinv, some r, rest0, []⟩

/-- The nonce cache holds a pair: both halves are present. -/
def ECDSA_DATA.full (data : ECDSA_DATA) : Prop := ¬ (data.kinv = none ∨ data.r = none)

/-! ## Concrete collaborators used to run the code -/

/-- Reference big-number arithmetic: remainders are Euclidean, the inverse is
the least one. -/
def refBN : BN_LIB where
  BN_nnmod a m := if m = 0 then none else some (a % m)
  BN_mod_mul a b m := if m = 0 then none else some ((a * b) % m)
  BN_mod_inverse a m :=
    ((List.range m.natAbs).find? (fun (w : Nat) => decide ((a * (w : Int)) % m = 1 % m))).map
      (fun (w : Nat) => (w : Int))

/-- Affine addition on the curve `y^2 = x^3 + 2x + 10` over the field with 19
elements; `none` is the point at infinity and inverses are 17th powers. -/
def curveAdd (P Q : Option (Nat × Nat)) : Option (Nat × Nat) :=
  match P, Q with
  | none, Q => Q
  | some p, none => some p
  | some (x1, y1), some (x2, y2) =>
    if x1 = x2 ∧ (y1 + y2) % 19 = 0 then none
    else
      let l := if x1 = x2 then ((3 * x1 * x1 + 2) * (2 * y1) ^ 17) % 19
               else ((y2 + 19 - y1) * (x2 + 19 - x1) ^ 17) % 19
      let x3 := (l * l + 38 - x1 - x2) % 19
      some (x3, (l * (x1 + 19 - x3) + 19 - y1) % 19)

/-- The multiple `k*(3, 9)` on that curve; the point `(3, 9)` has order 17. -/
def curveMul : Nat → Option (Nat × Nat)
  | 0 => none
  | k + 1 => curveAdd (curveMul k) (some (3, 9))

/-- Membership in the curve: the point at infinity, or a pair with
`y^2 = x^3 + 2x + 10` modulo 19. -/
def onCurve (P : Option (Nat × Nat)) : Bool :=
  match P with
  | none => true
  | some (x, y) => decide ((y * y) % 19 = (x * x * x + 2 * x + 10) % 19)

/-- The x-coordinate of the point of index `P`, that is of `P*(3, 9)`. -/
def curveX (P : ZMod 17) : Option Int :=
  match curveMul P.val with
  | none => none
  | some (x, _) => some (x : Int)

/-- The group of the 17 points of `y^2 = x^3 + 2x + 10` over the field with 19
elements, each point `k*(3, 9)` held as its index `k`; the generator is the
index 1. -/
def curveGroup : EC_GROUP (ZMod 17) where
  EC_GROUP_get_order := some 17
  field_type := NID_X9_62_prime_field
  EC_POINT_mul n q m :=
    some ((match n with | some a => (a : ZMod 17) | none => 0) +
          (match q, m with | some Q, some b => (b : ZMod 17) * Q | _, _ => 0))
  EC_POINT_get_affine_coordinates_GFp := curveX
  EC_POINT_get_affine_coordinates_GF2m := fun _ => none

/-- A key on `curveGroup` with private scalar `d`, public point `d*G` and the
given nonce cache. -/
def curveKey (d : Int) (cache : ECDSA_DATA) : EC_KEY (ZMod 17) :=
  ⟨some curveGroup, some (d : ZMod 17), some d, some cache⟩

/-- Key material the signer and the nonce generator require is missing: no
key, or a key without group, public point or private scalar. -/
def SignMaterialAbsent {Pt : Type} (eckey : Option (EC_KEY Pt)) : Prop :=
  match eckey with
  | none => True
  | some key => key.group = none ∨ key.pub_key = none ∨ key.priv_key = none

/-- What the verifier requires is missing: no signature, no key, or a key
without group or public point. -/
def VerifyMaterialAbsent {Pt : Type} (sig : Option ECDSA_SIG) (eckey : Option (EC_KEY Pt)) :
    Prop :=
  sig = none ∨
  match eckey with
  | none => True
  | some key => key.group = none ∨ key.pub_key = none

/-- A draw after which the loop of `ecdsa_sign_setup` draws again: a zero `k`,
or a `k` whose point has an x-coordinate that reduces to zero. -/
def Redrawn {Pt : Type} (B : BN_LIB) (group : EC_GROUP Pt) (order : Int) (k : Int) : Prop :=
  k = 0 ∨ ∃ P X, group.EC_POINT_mul (some k) none none = some P ∧
    affine_x group P = some X ∧ B.BN_nnmod X order = some 0

/-- A draw on which a library call of `ecdsa_sign_setup` fails, with the
reason the code reports: the random draw itself, the point multiplication,
the coordinate extraction, the modular reduction, or the modular inversion
(of a `k` whose `r` is not zero). -/
def FailedDraw {Pt : Type} (B : BN_LIB) (group : EC_GROUP Pt) (order : Int)
    (draw : Option Int) (e : ErrReason) : Prop :=
  (draw = none ∧ e = ErrReason.ECDSA_R_RANDOM_NUMBER_GENERATION_FAILED) ∨
  ∃ k, draw = some k ∧ k ≠ 0 ∧
    ((group.EC_POINT_mul (some k) none none = none ∧ e = ErrReason.ERR_R_EC_LIB) ∨
     ∃ P, group.EC_POINT_mul (some k) none none = some P ∧
       ((affine_x group P = none ∧ e = ErrReason.ERR_R_EC_LIB) ∨
        ∃ X, affine_x group P = some X ∧
          ((B.BN_nnmod X order = none ∧ e = ErrReason.ERR_R_BN_LIB) ∨
           ∃ r, B.BN_nnmod X order = some r ∧ r ≠ 0 ∧
             B.BN_mod_inverse k order = none ∧ e = ErrReason.ERR_R_BN_LIB)))

/-- The call `ecdsa_do_verify` as a transformer of the objects behind its
pointer arguments: lines 330-452 assign only to the locals `ctx`, `order`,
`u1`, `u2`, `m`, `X`, `point` and `ret`, so the signature and the key come out
as they went in, next to the result. -/
def ecdsa_do_verify_state {Pt : Type} (B : BN_LIB) (dgst : List (Fin 256))
    (sig : Option ECDSA_SIG) (eckey : Option (EC_KEY Pt)) :
    VerifyResult × Option ECDSA_SIG × Option (EC_KEY Pt) :=
  (ecdsa_do_verify B dgst sig eckey, sig, eckey)

/-! ## The nonce generator -/

section Generator

variable {Pt : Type}

/-- A loop of `ecdsa_sign_setup` that ends with a pair ends on a draw `k` that
is not zero, whose point has an x-coordinate that reduces to the non-zero
`r`; the draws before it are gone and `rest` follows it. -/
theorem sign_setup_loop_pair (B : BN_LIB) (group : EC_GROUP Pt) (order : Int) :
    ∀ (rand rest : List (Option Int)) (k r : Int),
      sign_setup_loop B group order rand = Run.done (Drawn.pair k r, rest) →
      ∃ pre, rand = pre ++ some k :: rest ∧ k ≠ 0 ∧ r ≠ 0 ∧
        ∃ P X, group.EC_POINT_mul (some k) none none = some P ∧
          affine_x group P = some X ∧ B.BN_nnmod X order = some r := by
  intro rand
  induction rand with
  | nil => intro rest k r h; simp [sign_setup_loop] at h
  | cons hd tl ih =>
    intro rest k r h
    cases hd with
    | none => simp [sign_setup_loop] at h
    | some k0 =>
      simp only [sign_setup_loop] at h
      split at h
      · obtain ⟨pre, hpre, rest1⟩ := ih rest k r h
        exact ⟨some k0 :: pre, by simp [hpre], rest1⟩
      · rename_i hk0
        split at h
        · simp at h
        · rename_i P hP
          split at h
          · simp at h
          · rename_i X hX
            split at h
            · simp at h
            · rename_i r0 hr0
              split at h
              · obtain ⟨pre, hpre, rest1⟩ := ih rest k r h
                exact ⟨some k0 :: pre, by simp [hpre], rest1⟩
              · rename_i hr0z
                simp only [Run.done.injEq, Prod.mk.injEq, Drawn.pair.injEq] at h
                obtain ⟨⟨rfl, rfl⟩, rfl⟩ := h
                refine ⟨[], by simp, ?_, ?_, P, X, hP, ?_, hr0⟩
                · simpa [BN_is_zero] using hk0
                · simpa [BN_is_zero] using hr0z
                · simpa [affine_x] using hX

/-- A successful `ecdsa_sign_setup` (any non-zero return) returns 1 with no
error, on a key with group, public point and private scalar, after a loop that
ended with a pair `(k, r)`, and stores `(BN_mod_inverse k, r)`. -/
theorem ecdsa_sign_setup_ok (B : BN_LIB) (key : EC_KEY Pt) (kinvp rp : Option Int)
    (rand : List (Option Int)) (su : SetupResult)
    (h : ecdsa_sign_setup B (some key) kinvp rp rand = Run.done su) (hret : su.ret ≠ 0) :
    ∃ group Q d order k kinv r,
      key.group = some group ∧ key.pub_key = some Q ∧ key.priv_key = some d ∧
      group.EC_GROUP_get_order = some order ∧
      sign_setup_loop B group (order : Int) rand = Run.done (Drawn.pair k r, su.rand) ∧
      B.BN_mod_inverse k (order : Int) = some kinv ∧
      su = ⟨1, some kinv, some r, su.rand, []⟩ := by
  unfold ecdsa_sign_setup at h
  simp only at h
  split at h
  · rename_i group Q d hg hQ hd
    split at h
    · simp only [Run.done.injEq] at h; subst h; simp at hret
    · rename_i order ho
      split at h
      · simp at h
      · simp only [Run.done.injEq] at h; subst h; simp at hret
      · rename_i k r rest hloop
        split at h
        · simp only [Run.done.injEq] at h; subst h; simp at hret
        · rename_i kinv hkinv
          simp only [Run.done.injEq] at h; subst h
          exact ⟨group, Q, d, order, k, kinv, r, hg, hQ, hd, ho, hloop, hkinv, rfl⟩
  · simp only [Run.done.injEq] at h; subst h; simp at hret

end Generator
section SignBody

variable {Pt : Type}

/-- The draws a successful setup leaves are a proper tail of its draws. -/
theorem ecdsa_sign_setup_rest (B : BN_LIB) (key : EC_KEY Pt) (kinvp rp : Option Int)
    (rand : List (Option Int)) (su : SetupResult)
    (h : ecdsa_sign_setup B (some key) kinvp rp rand = Run.done su) (hret : su.ret ≠ 0) :
    ∃ pre k, rand = pre ++ some k :: su.rand := by
  obtain ⟨group, Q, d, order, k, kinv, r, -, -, -, -, hloop, -, -⟩ :=
    ecdsa_sign_setup_ok B key kinvp rp rand su h hret
  obtain ⟨pre, hpre, -⟩ := sign_setup_loop_pair B group order rand su.rand k r hloop
  exact ⟨pre, k, hpre⟩

/-- What `sign_arith` can return: it never starves, it keeps the state, and
when it leaves the loop the arithmetic of the pass succeeded with `s ≠ 0`. -/
theorem sign_arith_cases (B : BN_LIB) (d n m : Int) (st : SignState) (kinv r : Int) :
    (sign_arith B d n m st kinv r = SignStep.again st) ∨
    (∃ e, sign_arith B d n m st kinv r = SignStep.err st e) ∨
    (∃ s, sign_arith B d n m st kinv r = SignStep.leave st r s ∧
      SignedWith B d n m kinv r s) := by
  unfold sign_arith
  split
  · exact Or.inr (Or.inl ⟨_, rfl⟩)
  · rename_i tmp htmp
    simp only
    split
    · exact Or.inr (Or.inl ⟨_, rfl⟩)
    · rename_i s hs
      split
      · exact Or.inl rfl
      · rename_i hz
        refine Or.inr (Or.inr ⟨s, rfl, tmp, htmp, hs, ?_⟩)
        simpa [BN_is_zero] using hz

/-- One pass of the signing loop on a key whose cache is not full: it either
starves, or ran `ECDSA_sign_setup` on the current draws and continues from the
draws that call left, with the cache untouched. -/
theorem sign_body_fresh (B : BN_LIB) (key : EC_KEY Pt) (d n m : Int) (st : SignState)
    (hc : ¬ st.ecdsa.full) :
    sign_body B key d n m st = SignStep.starved ∨
    ∃ su, ECDSA_sign_setup B (some key) st.kinv st.r st.rand = Run.done su ∧
      ((su.ret = 0 ∧ sign_body B key d n m st =
          SignStep.err ⟨st.ecdsa, su.kinvp, su.rp, su.rand⟩
            (su.err ++ [(ErrFunc.ECDSA_F_ECDSA_DO_SIGN, ErrReason.ERR_R_ECDSA_LIB)])) ∨
       (su.ret ≠ 0 ∧ ∃ kinv r, su = ⟨1, some kinv, some r, su.rand, []⟩ ∧
          sign_body B key d n m st =
            sign_arith B d n m ⟨st.ecdsa, some kinv, some r, su.rand⟩ kinv r)) := by
  have hc1 : st.ecdsa.kinv = none ∨ st.ecdsa.r = none := by
    unfold ECDSA_DATA.full at hc
    exact not_not.mp hc
  unfold sign_body
  rw [if_pos hc1]
  cases hsu : ECDSA_sign_setup B (some key) st.kinv st.r st.rand with
  | starved => exact Or.inl rfl
  | done su =>
    refine Or.inr ⟨su, rfl, ?_⟩
    by_cases hret : su.ret = 0
    · exact Or.inl ⟨hret, by simp [hret]⟩
    · obtain ⟨group, Q, d0, order, k, kinv, r, -, -, -, -, -, -, hsu1⟩ :=
        ecdsa_sign_setup_ok B key st.kinv st.r st.rand su hsu hret
      refine Or.inr ⟨hret, kinv, r, hsu1, ?_⟩
      simp only [if_neg hret]
      rw [hsu1]

/-- One pass of the signing loop on a key whose cache is full: the pair is
taken from the cache, the cache is emptied, no draw is consumed. -/
theorem sign_body_cached (B : BN_LIB) (key : EC_KEY Pt) (d n m : Int) (st : SignState)
    (kinv r : Int) (hc : st.ecdsa = ⟨some kinv, some r⟩) :
    sign_body B key d n m st =
      sign_arith B d n m ⟨⟨none, none⟩, some kinv, some r, st.rand⟩ kinv r := by
  unfold sign_body
  simp [hc]

end SignBody
section SignLoop

variable {Pt : Type}

/-- The loop of `ecdsa_sign_setup` only consumes draws from the front. -/
theorem sign_setup_loop_suffix (B : BN_LIB) (group : EC_GROUP Pt) (order : Int) :
    ∀ (rand rest : List (Option Int)) (x : Drawn),
      sign_setup_loop B group order rand = Run.done (x, rest) → rest <:+ rand := by
  intro rand
  induction rand with
  | nil => intro rest x h; simp [sign_setup_loop] at h
  | cons hd tl ih =>
    intro rest x h
    have htl : tl <:+ hd :: tl := List.suffix_cons hd tl
    cases hd with
    | none =>
      simp only [sign_setup_loop, Run.done.injEq, Prod.mk.injEq] at h
      rw [← h.2]; exact htl
    | some k0 =>
      simp only [sign_setup_loop] at h
      split at h
      · exact (ih rest x h).trans htl
      · split at h
        · simp only [Run.done.injEq, Prod.mk.injEq] at h; rw [← h.2]; exact htl
        · split at h
          · simp only [Run.done.injEq, Prod.mk.injEq] at h; rw [← h.2]; exact htl
          · split at h
            · simp only [Run.done.injEq, Prod.mk.injEq] at h; rw [← h.2]; exact htl
            · split at h
              · exact (ih rest x h).trans htl
              · simp only [Run.done.injEq, Prod.mk.injEq] at h; rw [← h.2]; exact htl

/-- The draws `ecdsa_sign_setup` leaves are a tail of the draws it was given. -/
theorem ecdsa_sign_setup_suffix (B : BN_LIB) (eckey : Option (EC_KEY Pt))
    (kinvp rp : Option Int) (rand : List (Option Int)) (su : SetupResult)
    (h : ecdsa_sign_setup B eckey kinvp rp rand = Run.done su) : su.rand <:+ rand := by
  unfold ecdsa_sign_setup at h
  split at h
  · simp only [Run.done.injEq] at h; subst h; exact List.suffix_refl _
  · split at h
    · split at h
      · simp only [Run.done.injEq] at h; subst h; exact List.suffix_refl _
      · split at h
        · simp at h
        · rename_i hloop
          simp only [Run.done.injEq] at h; subst h
          exact sign_setup_loop_suffix B _ _ _ _ _ hloop
        · rename_i hloop
          split at h
          · simp only [Run.done.injEq] at h; subst h
            exact sign_setup_loop_suffix B _ _ _ _ _ hloop
          · simp only [Run.done.injEq] at h; subst h
            exact sign_setup_loop_suffix B _ _ _ _ _ hloop
    · simp only [Run.done.injEq] at h; subst h; exact List.suffix_refl _

/-- The signing loop on a key whose cache is not full: when it returns, the
cache is as it was, the draws left are a tail of the draws, and a returned
signature `(r, s)` was computed from a pair `(kinv, r)` that a successful
`ECDSA_sign_setup` stored, leaving exactly the draws the call leaves. -/
theorem do_sign_loop_fresh (B : BN_LIB) (key : EC_KEY Pt) (d n m : Int) :
    ∀ (fuel : Nat) (st : SignState) (res : SignResult), ¬ st.ecdsa.full →
      do_sign_loop B key d n m fuel st = Run.done res →
      res.ecdsa = some st.ecdsa ∧ res.rand <:+ st.rand ∧
      ∀ sig, res.ret = some sig →
        ∃ kinv kinvp rp mid pre k, mid <:+ st.rand ∧ mid = pre ++ some k :: res.rand ∧
          ECDSA_sign_setup B (some key) kinvp rp mid =
            Run.done ⟨1, some kinv, some sig.r, res.rand, []⟩ ∧
          SignedWith B d n m kinv sig.r sig.s := by
  intro fuel
  induction fuel with
  | zero => intro st res _ h; simp [do_sign_loop] at h
  | succ fuel ih =>
    intro st res hc h
    simp only [do_sign_loop] at h
    rcases sign_body_fresh B key d n m st hc with hb | ⟨su, hsu, hb | hb⟩
    · rw [hb] at h; simp at h
    · obtain ⟨-, hb⟩ := hb
      rw [hb] at h
      simp only [Run.done.injEq] at h; subst h
      exact ⟨rfl, ecdsa_sign_setup_suffix B _ _ _ _ _ hsu, by intro sig hs; simp at hs⟩
    · obtain ⟨hret, kinv, r, hsu1, hb⟩ := hb
      have hsuf : su.rand <:+ st.rand := ecdsa_sign_setup_suffix B _ _ _ _ _ hsu
      obtain ⟨pre, k, hpre⟩ := ecdsa_sign_setup_rest B key _ _ _ su hsu hret
      rw [hb] at h
      rcases sign_arith_cases B d n m ⟨st.ecdsa, some kinv, some r, su.rand⟩ kinv r with
        ha | ⟨e, ha⟩ | ⟨s, ha, hs⟩
      · rw [ha] at h
        simp only at h
        obtain ⟨h1, h2, h3⟩ :=
          ih ⟨st.ecdsa, some kinv, some r, su.rand⟩ res hc h
        refine ⟨h1, h2.trans hsuf, ?_⟩
        intro sig hsig
        obtain ⟨kinv1, kp, rpp, mid, pre1, k1, hm1, hm2, hm3, hm4⟩ := h3 sig hsig
        exact ⟨kinv1, kp, rpp, mid, pre1, k1, hm1.trans hsuf, hm2, hm3, hm4⟩
      · rw [ha] at h
        simp only [Run.done.injEq] at h; subst h
        exact ⟨rfl, hsuf, by intro sig hs; simp at hs⟩
      · rw [ha] at h
        simp only [Run.done.injEq] at h; subst h
        refine ⟨rfl, hsuf, ?_⟩
        intro sig hsig
        simp only [Option.some.injEq] at hsig; subst hsig
        refine ⟨kinv, st.kinv, st.r, st.rand, pre, k, List.suffix_refl _, hpre, ?_, hs⟩
        rw [hsu, hsu1]

/-- The signing loop on a key whose cache holds `(kinv, r)`: when it returns,
the cache is empty, and a returned signature was computed either from the
cached pair, with no draw consumed, or from a pair that a later successful
`ECDSA_sign_setup` stored. -/
theorem do_sign_loop_cached (B : BN_LIB) (key : EC_KEY Pt) (d n m : Int)
    (fuel : Nat) (st : SignState) (res : SignResult) (kinv r : Int)
    (hc : st.ecdsa = ⟨some kinv, some r⟩)
    (h : do_sign_loop B key d n m fuel st = Run.done res) :
    res.ecdsa = some ⟨none, none⟩ ∧ res.rand <:+ st.rand ∧
    ∀ sig, res.ret = some sig →
      (sig.r = r ∧ res.rand = st.rand ∧ SignedWith B d n m kinv sig.r sig.s) ∨
      ∃ kinv1 kinvp rp mid pre k, mid <:+ st.rand ∧ mid = pre ++ some k :: res.rand ∧
        ECDSA_sign_setup B (some key) kinvp rp mid =
          Run.done ⟨1, some kinv1, some sig.r, res.rand, []⟩ ∧
        SignedWith B d n m kinv1 sig.r sig.s := by
  cases fuel with
  | zero => simp [do_sign_loop] at h
  | succ fuel =>
    simp only [do_sign_loop] at h
    rw [sign_body_cached B key d n m st kinv r hc] at h
    rcases sign_arith_cases B d n m ⟨⟨none, none⟩, some kinv, some r, st.rand⟩ kinv r with
      ha | ⟨e, ha⟩ | ⟨s, ha, hs⟩
    · rw [ha] at h
      simp only at h
      have hnf : ¬ (SignState.mk ⟨none, none⟩ (some kinv) (some r) st.rand).ecdsa.full := by
        simp [ECDSA_DATA.full]
      obtain ⟨h1, h2, h3⟩ := do_sign_loop_fresh B key d n m fuel _ res hnf h
      exact ⟨h1, h2, fun sig hsig => Or.inr (h3 sig hsig)⟩
    · rw [ha] at h
      simp only [Run.done.injEq] at h; subst h
      exact ⟨rfl, List.suffix_refl _, by intro sig hs; simp at hs⟩
    · rw [ha] at h
      simp only [Run.done.injEq] at h; subst h
      refine ⟨rfl, List.suffix_refl _, ?_⟩
      intro sig hsig
      simp only [Option.some.injEq] at hsig; subst hsig
      exact Or.inl ⟨rfl, rfl, hs⟩

end SignLoop
section Arithmetic

variable {Pt : Type}

/-- The sum the signer multiplies by `kinv` is congruent to `tmp + m`. -/
theorem sign_sum_modEq (tmp m n : Int) : sign_sum tmp m n ≡ tmp + m [ZMOD n] := by
  unfold sign_sum BN_add BN_sub
  simp only
  split
  · have h : (tmp + m - n) % n = (tmp + m) % n := by
      rw [Int.sub_emod, Int.emod_self, sub_zero, Int.emod_emod]
    exact h
  · exact Int.ModEq.refl _

/-- With sound arithmetic, a pass that ends the signing loop computed
`s = kinv * (m + d * r) mod n`, and `n` is not zero. -/
theorem signedWith_eq (B : BN_LIB) (hB : B.Sound) (d n m kinv r s : Int)
    (h : SignedWith B d n m kinv r s) :
    n ≠ 0 ∧ s ≠ 0 ∧ s = (kinv * (m + d * r)) % n := by
  obtain ⟨tmp, h1, h2, h3⟩ := h
  obtain ⟨hn, htmp⟩ := hB.mod_mul _ _ _ _ h1
  obtain ⟨-, hs⟩ := hB.mod_mul _ _ _ _ h2
  refine ⟨hn, h3, ?_⟩
  rw [hs]
  have e1 : tmp ≡ d * r [ZMOD n] := by rw [htmp]; exact Int.mod_modEq _ _
  have e2 : sign_sum tmp m n ≡ m + d * r [ZMOD n] := by
    have e3 : tmp + m ≡ d * r + m [ZMOD n] := e1.add_right m
    rw [add_comm (d * r) m] at e3
    exact (sign_sum_modEq tmp m n).trans e3
  have e4 : sign_sum tmp m n * kinv ≡ kinv * (m + d * r) [ZMOD n] := by
    rw [mul_comm kinv]
    exact e2.mul_right kinv
  exact e4

/-- Scalars congruent modulo an annihilator of `G` give the same multiple. -/
theorem zsmul_congr [AddCommGroup Pt] (G : Pt) (a b n : Int) (h : a ≡ b [ZMOD n])
    (hn : n • G = 0) : a • G = b • G := by
  obtain ⟨c, hc⟩ := h.dvd
  have e : b = a + n * c := by linarith
  rw [e, add_zsmul, mul_comm, mul_zsmul, hn, smul_zero, add_zero]

/-- A number strictly between 0 and a prime is coprime to it. -/
theorem gcd_eq_one_of_lt_prime (s : Int) (n : Nat) (hp : n.Prime) (h0 : 0 < s)
    (h1 : s < n) : Int.gcd s n = 1 := by
  have hc : Nat.Coprime s.natAbs n := by
    apply Nat.Coprime.symm
    apply (Nat.Prime.coprime_iff_not_dvd hp).2
    intro hd
    have hle := Nat.le_of_dvd (by omega) hd
    omega
  simpa [Int.gcd] using hc

/-- The reference arithmetic is sound. -/
theorem refBN_sound : refBN.Sound where
  nnmod := by
    intro a m r h
    simp only [refBN] at h
    split at h
    · simp at h
    · rename_i hm
      simp only [Option.some.injEq] at h
      exact ⟨hm, h.symm⟩
  mod_mul := by
    intro a b m r h
    simp only [refBN] at h
    split at h
    · simp at h
    · rename_i hm
      simp only [Option.some.injEq] at h
      exact ⟨hm, h.symm⟩
  mod_inverse := by
    intro a m w h
    simp only [refBN, Option.map_eq_some'] at h
    obtain ⟨x, hx, rfl⟩ := h
    have hp := List.find?_some hx
    have hmem := List.mem_of_find?_eq_some hx
    simp only [List.mem_range] at hmem
    simp only [decide_eq_true_eq] at hp
    refine ⟨?_, by omega, ?_, hp⟩
    · intro hm; subst hm; simp at hmem
    · have : ((m.natAbs : Nat) : Int) = |m| := Int.natCast_natAbs m
      omega

/-- The reference arithmetic does not fail where the result exists. -/
theorem refBN_total : refBN.Total where
  nnmod := by
    intro a m hm
    exact ⟨a % m, by simp [refBN, hm]⟩
  mod_mul := by
    intro a b m hm
    exact ⟨(a * b) % m, by simp [refBN, hm]⟩
  mod_inverse := by
    intro a m hm hg
    obtain ⟨u, v, huv⟩ := (Int.isCoprime_iff_gcd_eq_one).2 hg
    have hinv : (a * (u % m)) % m = 1 % m := by
      have h1 : u % m ≡ u [ZMOD m] := Int.mod_modEq u m
      have h2 : a * (u % m) ≡ a * u [ZMOD m] := h1.mul_left a
      have h3 : a * u ≡ 1 [ZMOD m] := by
        have e : a * u = 1 - v * m := by linarith
        rw [e]
        have e2 : (1 - v * m) % m = 1 % m := by
          rw [Int.sub_emod, Int.mul_emod_left, sub_zero, Int.emod_emod]
        exact e2
      exact h2.trans h3
    have hnn : 0 ≤ u % m := Int.emod_nonneg u (by omega)
    have hlt : u % m < m := Int.emod_lt_of_pos u hm
    have hsome : ((List.range m.natAbs).find?
        (fun (w : Nat) => decide ((a * (w : Int)) % m = 1 % m))).isSome := by
      rw [List.find?_isSome]
      refine ⟨(u % m).toNat, ?_, ?_⟩
      · simp only [List.mem_range]; omega
      · simp only [decide_eq_true_eq]
        rw [Int.toNat_of_nonneg hnn]
        exact hinv
    obtain ⟨w, hw⟩ := Option.isSome_iff_exists.1 hsome
    exact ⟨(w : Int), by simp [refBN, hw]⟩

/-- The group of indices of the 17 curve points is lawful with generator 1. -/
theorem curveGroup_lawful : curveGroup.Lawful (1 : ZMod 17) 17 where
  order_eq := rfl
  order_smul := by decide
  mul_gen := by
    intro k
    simp [curveGroup]
  mul_both := by
    intro a Q b
    simp [curveGroup]

end Arithmetic
section Verify

variable {Pt : Type}

/-- The unsigned comparison of two non-negative numbers is 0 only when they
are equal. -/
theorem BN_ucmp_eq_zero (a b : Int) (ha : 0 ≤ a) (hb : 0 ≤ b) (h : BN_ucmp a b = 0) :
    a = b := by
  unfold BN_ucmp at h
  split at h
  · simp at h
  · split at h
    · omega
    · simp at h

/-- The range test of `ecdsa_do_verify` passes a component in `[1, n-1]`. -/
theorem range_test_in (x : Int) (n : Nat) (h0 : 0 < x) (h1 : x < n) :
    (BN_is_zero x || BN_get_sign x || decide (BN_ucmp x n ≥ 0)) = false := by
  have ha : x.natAbs < (n : Int).natAbs := by omega
  simp only [BN_is_zero, BN_get_sign, BN_ucmp, if_pos ha]
  have h2 : ¬ x = 0 := by omega
  have h3 : ¬ x < 0 := by omega
  simp [h2, h3]

/-- The range test of `ecdsa_do_verify` catches a component that is zero,
negative, or at least `n`. -/
theorem range_test_out (x : Int) (n : Nat) (h : x ≤ 0 ∨ (n : Int) ≤ x) :
    (BN_is_zero x || BN_get_sign x || decide (BN_ucmp x n ≥ 0)) = true := by
  by_cases h0 : x = 0
  · simp [BN_is_zero, h0]
  · by_cases h1 : x < 0
    · simp [BN_get_sign, h1]
    · have ha : ¬ x.natAbs < (n : Int).natAbs := by omega
      simp only [BN_ucmp, if_neg ha]
      have hc : (0 : Int) ≤ (if x.natAbs = (n : Int).natAbs then 0 else 1) := by
        split <;> decide
      simp only [ge_iff_le, hc, decide_True, Bool.or_true]

/-- The verifier on an in-range signature when no library call fails: the
result is the comparison of the reduced x-coordinate with `r`. -/
theorem ecdsa_do_verify_eval (B : BN_LIB) (dgst : List (Fin 256)) (sig : ECDSA_SIG)
    (key : EC_KEY Pt) (group : EC_GROUP Pt) (Q : Pt) (n : Nat) (w u1 u2 X v : Int) (P : Pt)
    (hg : key.group = some group) (hQ : key.pub_key = some Q)
    (hn : group.EC_GROUP_get_order = some n)
    (hr0 : 0 < sig.r) (hr1 : sig.r < n) (hs0 : 0 < sig.s) (hs1 : sig.s < n)
    (hw : B.BN_mod_inverse sig.s n = some w)
    (hu1 : B.BN_mod_mul (BN_bin2bn dgst) w n = some u1)
    (hu2 : B.BN_mod_mul sig.r w n = some u2)
    (hP : group.EC_POINT_mul (some u1) (some Q) (some u2) = some P)
    (hX : affine_x group P = some X)
    (hv : B.BN_nnmod X n = some v) :
    ecdsa_do_verify B dgst (some sig) (some key) =
      ⟨if BN_ucmp v sig.r = 0 then 1 else 0, []⟩ := by
  unfold affine_x at hX
  unfold ecdsa_do_verify
  simp only [hg, hQ, hn, range_test_in sig.r n hr0 hr1, range_test_in sig.s n hs0 hs1,
    hw, hu1, hu2, hP, hX, hv]
  simp

/-- The verifier on a signature whose `r` or `s` is out of range: it returns 0
and reports `ECDSA_R_BAD_SIGNATURE`. -/
theorem ecdsa_do_verify_out (B : BN_LIB) (dgst : List (Fin 256)) (sig : ECDSA_SIG)
    (key : EC_KEY Pt) (group : EC_GROUP Pt) (Q : Pt) (n : Nat)
    (hg : key.group = some group) (hQ : key.pub_key = some Q)
    (hn : group.EC_GROUP_get_order = some n)
    (h : sig.r ≤ 0 ∨ (n : Int) ≤ sig.r ∨ sig.s ≤ 0 ∨ (n : Int) ≤ sig.s) :
    ecdsa_do_verify B dgst (some sig) (some key) =
      ⟨0, [(ErrFunc.ECDSA_F_ECDSA_DO_VERIFY, ErrReason.ECDSA_R_BAD_SIGNATURE)]⟩ := by
  unfold ecdsa_do_verify
  simp only [hg, hQ, hn]
  by_cases hr : sig.r ≤ 0 ∨ (n : Int) ≤ sig.r
  · simp [range_test_out sig.r n hr]
  · have hs : sig.s ≤ 0 ∨ (n : Int) ≤ sig.s := by
      rcases h with h | h | h | h
      · exact absurd (Or.inl h) hr
      · exact absurd (Or.inr h) hr
      · exact Or.inl h
      · exact Or.inr h
    have hr0 : 0 < sig.r := by
      by_contra hc; exact hr (Or.inl (by omega))
    have hr1 : sig.r < n := by
      by_contra hc; exact hr (Or.inr (by omega))
    simp [range_test_in sig.r n hr0 hr1, range_test_out sig.s n hs]

end Verify
section Recombination

variable {Pt : Type}

/-- A call of `ecdsa_do_sign` that returns a signature passed the key checks,
obtained the order, passed the digest-length check and ran the signing loop
from the key's cache and empty locals. -/
theorem ecdsa_do_sign_run (B : BN_LIB) (dgst : List (Fin 256)) (key : EC_KEY Pt)
    (rand : List (Option Int)) (res : SignResult) (sig : ECDSA_SIG)
    (h : ecdsa_do_sign B dgst (some key) rand = Run.done res) (hsig : res.ret = some sig) :
    ∃ group Q d n data, key.group = some group ∧ key.pub_key = some Q ∧
      key.priv_key = some d ∧ key.meth_data = some data ∧
      group.EC_GROUP_get_order = some n ∧ dgst.length ≤ BN_num_bytes n ∧
      do_sign_loop B key d n (BN_bin2bn dgst) (rand.length + 2) ⟨data, none, none, rand⟩ =
        Run.done res := by
  unfold ecdsa_do_sign ecdsa_check at h
  simp only at h
  split at h
  · rename_i group Q d data hg hQ hd hdata
    split at h
    · simp only [Run.done.injEq] at h; subst h; simp at hsig
    · rename_i n hn
      split at h
      · simp only [Run.done.injEq] at h; subst h; simp at hsig
      · rename_i hlen
        exact ⟨group, Q, d, n, data, hg, hQ, hd, hdata, hn, by omega, h⟩
  · simp only [Run.done.injEq] at h; subst h; simp at hsig

/-- The scalars of the verifier recombine to the nonce: with `k*kinv = 1`,
`s = kinv*(m + d*r)` and `s*w = 1` modulo `n`, the sum `u1 + u2*d` of
`u1 = m*w mod n` and `u2 = r*w mod n` is congruent to `k`. -/
theorem verify_scalar_congr (n m d r s k kinv w : Int)
    (hk : k * kinv ≡ 1 [ZMOD n]) (hs : s ≡ kinv * (m + d * r) [ZMOD n])
    (hw : s * w ≡ 1 [ZMOD n]) :
    (m * w) % n + (r * w) % n * d ≡ k [ZMOD n] := by
  have h1 : (m * w) % n + (r * w) % n * d ≡ m * w + r * w * d [ZMOD n] :=
    (Int.mod_modEq _ _).add ((Int.mod_modEq _ _).mul_right d)
  have h2 : k * s ≡ m + d * r [ZMOD n] := by
    have h3 : k * s ≡ k * (kinv * (m + d * r)) [ZMOD n] := hs.mul_left k
    have h4 : k * kinv * (m + d * r) ≡ 1 * (m + d * r) [ZMOD n] := hk.mul_right _
    rw [one_mul, mul_assoc] at h4
    exact h3.trans h4
  have h5 : m * w + r * w * d ≡ k [ZMOD n] := by
    have h6 : (m + d * r) * w ≡ k * s * w [ZMOD n] := (h2.symm).mul_right w
    have h7 : k * (s * w) ≡ k * 1 [ZMOD n] := hw.mul_left k
    rw [mul_one, ← mul_assoc] at h7
    have h8 : m * w + r * w * d = (m + d * r) * w := by ring
    rw [h8]
    exact h6.trans h7
  exact h1.trans h5

/-- What a pair stored by a successful setup satisfies, on a lawful group with
sound arithmetic: for the nonce `k` last drawn, `k*kinv = 1` modulo `n`, and
`r` is the non-zero reduction of the x-coordinate of `k*G`. -/
theorem setup_pair_facts [AddCommGroup Pt] (B : BN_LIB) (hB : B.Sound)
    (key : EC_KEY Pt) (group : EC_GROUP Pt) (G : Pt) (n : Nat)
    (hL : group.Lawful G n) (hg : key.group = some group)
    (kinvp rp : Option Int) (mid rest : List (Option Int)) (kinv r : Int)
    (h : ECDSA_sign_setup B (some key) kinvp rp mid =
      Run.done ⟨1, some kinv, some r, rest, []⟩) :
    ∃ (k X : Int) (pre : List (Option Int)), mid = pre ++ some k :: rest ∧ k ≠ 0 ∧
      (n : Int) ≠ 0 ∧ k * kinv ≡ 1 [ZMOD n] ∧
      affine_x group (k • G) = some X ∧ r = X % n ∧ r ≠ 0 := by
  unfold ECDSA_sign_setup at h
  obtain ⟨group1, Q, d, order, k, kinv1, r1, hg1, -, -, ho, hloop, hinv, hsu⟩ :=
    ecdsa_sign_setup_ok B key kinvp rp mid _ h (by simp)
  simp only [SetupResult.mk.injEq, Option.some.injEq, true_and, and_true] at hsu
  obtain ⟨rfl, rfl⟩ := hsu
  rw [hg] at hg1
  simp only [Option.some.injEq] at hg1
  subst hg1
  rw [hL.order_eq] at ho
  simp only [Option.some.injEq] at ho
  subst ho
  obtain ⟨pre, hpre, hk0, hr0, P, X, hP, hX, hr⟩ :=
    sign_setup_loop_pair B group _ mid rest k r hloop
  rw [hL.mul_gen] at hP
  simp only [Option.some.injEq] at hP
  subst hP
  obtain ⟨hn, hrX⟩ := hB.nnmod _ _ _ hr
  obtain ⟨-, -, -, hki⟩ := hB.mod_inverse _ _ _ hinv
  exact ⟨k, X, pre, hpre, hk0, hn, hki, hX, hrX, hr0⟩

end Recombination
section RoundTrip

variable {Pt : Type}

/-- Residues in `[0, n)` that are congruent modulo `n` are equal. -/
theorem eq_of_modEq_of_range (a b n : Int) (h : a ≡ b [ZMOD n]) (ha0 : 0 ≤ a) (ha1 : a < n)
    (hb0 : 0 ≤ b) (hb1 : b < n) : a = b := by
  have h1 : a % n = a := Int.emod_eq_of_lt ha0 ha1
  have h2 : b % n = b := Int.emod_eq_of_lt hb0 hb1
  have h3 : a % n = b % n := h
  rw [h1, h2] at h3
  exact h3

/-- A signature from a fresh pair: on a lawful group with sound arithmetic the
signing call that returns `(r, s)` from a cache that is not full used a nonce
`k` with `r = x(k*G) mod n`, `r` and `s` in `[1, n-1]`, and
`s = kinv*(m + d*r) mod n` for an inverse `kinv` of `k`. -/
theorem fresh_signature_facts [AddCommGroup Pt] (B : BN_LIB) (hB : B.Sound)
    (group : EC_GROUP Pt) (G : Pt) (n : Nat) (hL : group.Lawful G n)
    (key : EC_KEY Pt) (d : Int) (data : ECDSA_DATA)
    (hg : key.group = some group) (hd : key.priv_key = some d)
    (hdata : key.meth_data = some data) (hc : ¬ data.full)
    (dgst : List (Fin 256)) (rand : List (Option Int)) (res : SignResult) (sig : ECDSA_SIG)
    (hrun : ecdsa_do_sign B dgst (some key) rand = Run.done res)
    (hsig : res.ret = some sig) :
    ∃ k kinv X : Int, k ≠ 0 ∧ k * kinv ≡ 1 [ZMOD n] ∧
      affine_x group (k • G) = some X ∧ sig.r = X % n ∧
      sig.s = (kinv * (BN_bin2bn dgst + d * sig.r)) % n ∧
      0 < sig.r ∧ sig.r < n ∧ 0 < sig.s ∧ sig.s < n := by
  obtain ⟨group1, Q, d1, n1, data1, hg1, -, hd1, hdata1, hn1, -, hloop⟩ :=
    ecdsa_do_sign_run B dgst key rand res sig hrun hsig
  rw [hg] at hg1; cases hg1
  rw [hd] at hd1; cases hd1
  rw [hdata] at hdata1; cases hdata1
  rw [hL.order_eq] at hn1; cases hn1
  obtain ⟨-, -, h3⟩ := do_sign_loop_fresh B key d n (BN_bin2bn dgst) _ _ res hc hloop
  obtain ⟨kinv, kinvp, rp, mid, pre, k0, -, -, hsetup, hsw⟩ := h3 sig hsig
  obtain ⟨k, X, pre1, -, hk0, hn0, hki, hX, hrX, hr0⟩ :=
    setup_pair_facts B hB key group G n hL hg kinvp rp mid res.rand kinv sig.r hsetup
  obtain ⟨-, hs0, hs⟩ := signedWith_eq B hB d n (BN_bin2bn dgst) kinv sig.r sig.s hsw
  have hnpos : (0 : Int) < n := by omega
  have hr1 : 0 ≤ sig.r := by rw [hrX]; exact Int.emod_nonneg _ hn0
  have hr2 : sig.r < n := by rw [hrX]; exact Int.emod_lt_of_pos _ hnpos
  have hs1 : 0 ≤ sig.s := by rw [hs]; exact Int.emod_nonneg _ hn0
  have hs2 : sig.s < n := by rw [hs]; exact Int.emod_lt_of_pos _ hnpos
  exact ⟨k, kinv, X, hk0, hki, hX, hrX, hs, by omega, hr2, by omega, hs2⟩

/-- C1: sign-then-verify round trip.  On a group of prime order `n` with
generator `G`, for every private scalar `d` with public point `d*G`, every
digest and every list of nonce draws on which `ecdsa_do_sign` returns a
signature from a key whose cache holds no pair, `ecdsa_do_verify` on the same
digest, that signature and the key's group and public point returns 1. -/
theorem sign_then_verify_accepts [AddCommGroup Pt] (B : BN_LIB) (hB : B.Sound)
    (hT : B.Total) (group : EC_GROUP Pt) (G : Pt) (n : Nat) (hL : group.Lawful G n)
    (hp : n.Prime) (d : Int) (data : ECDSA_DATA) (hc : ¬ data.full)
    (dgst : List (Fin 256)) (rand : List (Option Int)) (res : SignResult) (sig : ECDSA_SIG)
    (hrun : ecdsa_do_sign B dgst (some ⟨some group, some (d • G), some d, some data⟩) rand =
      Run.done res)
    (hsig : res.ret = some sig) (priv : Option Int) (cache : Option ECDSA_DATA) :
    ecdsa_do_verify B dgst (some sig) (some ⟨some group, some (d • G), priv, cache⟩) =
      ⟨1, []⟩ := by
  obtain ⟨k, kinv, X, -, hki, hX, hrX, hs, hr0, hr1, hs0, hs1⟩ :=
    fresh_signature_facts B hB group G n hL ⟨some group, some (d • G), some d, some data⟩
      d data rfl rfl rfl hc dgst rand res sig hrun hsig
  have hn0 : (n : Int) ≠ 0 := by omega
  have hnpos : (0 : Int) < n := by omega
  obtain ⟨w, hw⟩ := hT.mod_inverse sig.s n hnpos (gcd_eq_one_of_lt_prime sig.s n hp hs0 hs1)
  obtain ⟨-, -, -, hsw⟩ := hB.mod_inverse _ _ _ hw
  obtain ⟨u1, hu1⟩ := hT.mod_mul (BN_bin2bn dgst) w n hn0
  obtain ⟨u2, hu2⟩ := hT.mod_mul sig.r w n hn0
  obtain ⟨-, hu1v⟩ := hB.mod_mul _ _ _ _ hu1
  obtain ⟨-, hu2v⟩ := hB.mod_mul _ _ _ _ hu2
  obtain ⟨v, hv⟩ := hT.nnmod X n hn0
  obtain ⟨-, hvv⟩ := hB.nnmod _ _ _ hv
  have hpt : u1 • G + u2 • (d • G) = k • G := by
    rw [← mul_smul, ← add_smul]
    apply zsmul_congr G _ _ n _ hL.order_smul
    rw [hu1v, hu2v]
    exact verify_scalar_congr n (BN_bin2bn dgst) d sig.r sig.s k kinv w hki
      (by rw [hs]; exact Int.mod_modEq _ _) hsw
  have hP : group.EC_POINT_mul (some u1) (some (d • G)) (some u2) = some (k • G) := by
    rw [hL.mul_both, hpt]
  have hfin := ecdsa_do_verify_eval B dgst sig ⟨some group, some (d • G), priv, cache⟩
    group (d • G) n w u1 u2 X v (k • G) rfl rfl hL.order_eq hr0 hr1 hs0 hs1 hw hu1 hu2 hP hX hv
  rw [hfin, hvv, ← hrX]
  simp [BN_ucmp]

/-- C1 at a concrete input: on the 17-point curve group with `d = 7`, the
digest `[5]` and the draws `0, 6, 4, 16`, signing skips three draws and
returns `(3, 8)`, which verifies. -/
theorem sign_then_verify_accepts_witness :
    ecdsa_do_sign refBN [5] (some (curveKey 7 ⟨none, none⟩)) [some 0, some 6, some 4, some 16] =
      Run.done ⟨some ⟨3, 8⟩, some ⟨none, none⟩, [], []⟩ ∧
    ecdsa_do_verify refBN [5] (some ⟨3, 8⟩) (some (curveKey 7 ⟨none, none⟩)) = ⟨1, []⟩ :=
  ⟨by decide,
   by
    have h := sign_then_verify_accepts refBN refBN_sound refBN_total curveGroup (1 : ZMod 17)
      17 curveGroup_lawful (by norm_num) 7 ⟨none, none⟩ (by simp [ECDSA_DATA.full]) [5]
      [some 0, some 6, some 4, some 16] ⟨some ⟨3, 8⟩, some ⟨none, none⟩, [], []⟩ ⟨3, 8⟩
      (by decide) rfl (some 7) (some ⟨none, none⟩)
    simpa [curveKey] using h⟩

/-- C2: signing equation.  Whenever `ecdsa_do_sign` returns `(r, s)`, the pair
`(kinv, r)` it used (cached on the key, or stored by a successful
`ECDSA_sign_setup`) satisfies `s = kinv * (h + d*r) mod n`, `h` being the
digest read as a big-endian integer, whether or not `h` is below `n`. -/
theorem sign_equation (B : BN_LIB) (hB : B.Sound) (dgst : List (Fin 256))
    (key : EC_KEY Pt) (group : EC_GROUP Pt) (n : Nat) (d : Int)
    (rand : List (Option Int)) (res : SignResult) (sig : ECDSA_SIG)
    (hg : key.group = some group) (hn : group.EC_GROUP_get_order = some n)
    (hd : key.priv_key = some d)
    (hrun : ecdsa_do_sign B dgst (some key) rand = Run.done res)
    (hsig : res.ret = some sig) :
    dgst.length ≤ BN_num_bytes n ∧
    ∃ kinv, UsedPair B key rand res.rand kinv sig.r ∧
      sig.s = (kinv * (BN_bin2bn dgst + d * sig.r)) % n := by
  obtain ⟨group1, Q, d1, n1, data, hg1, -, hd1, hdata, hn1, hlen, hloop⟩ :=
    ecdsa_do_sign_run B dgst key rand res sig hrun hsig
  rw [hg] at hg1; cases hg1
  rw [hd] at hd1; cases hd1
  rw [hn] at hn1; cases hn1
  refine ⟨hlen, ?_⟩
  by_cases hc : data.full
  · obtain ⟨kinv0, r0, hdat⟩ : ∃ kinv0 r0, data = ⟨some kinv0, some r0⟩ := by
      rcases data with ⟨_ | a, _ | b⟩
      · exact absurd hc (by simp [ECDSA_DATA.full])
      · exact absurd hc (by simp [ECDSA_DATA.full])
      · exact absurd hc (by simp [ECDSA_DATA.full])
      · exact ⟨a, b, rfl⟩
    obtain ⟨-, -, h3⟩ := do_sign_loop_cached B key d n (BN_bin2bn dgst) _ _ res kinv0 r0
      hdat hloop
    rcases h3 sig hsig with ⟨hr, hrand, hsw⟩ | ⟨kinv1, kinvp, rp, mid, pre, k, hm, -, hset, hsw⟩
    · refine ⟨kinv0, Or.inl ⟨?_, hrand⟩, (signedWith_eq B hB _ _ _ _ _ _ hsw).2.2⟩
      rw [hdata, hdat, hr]
    · exact ⟨kinv1, Or.inr ⟨kinvp, rp, mid, hm, hset⟩, (signedWith_eq B hB _ _ _ _ _ _ hsw).2.2⟩
  · obtain ⟨-, -, h3⟩ := do_sign_loop_fresh B key d n (BN_bin2bn dgst) _ _ res hc hloop
    obtain ⟨kinv1, kinvp, rp, mid, pre, k, hm, -, hset, hsw⟩ := h3 sig hsig
    exact ⟨kinv1, Or.inr ⟨kinvp, rp, mid, hm, hset⟩, (signedWith_eq B hB _ _ _ _ _ _ hsw).2.2⟩

end RoundTrip
section VerifierDecision

variable {Pt : Type}

/-- C2 at a concrete input whose digest value 255 exceeds `n = 17`: with
`d = 7` and the nonce 16 the signature is `(3, 13)`, the pair used came from
the setup, and `13 = kinv * (255 + 7*3) mod 17`. -/
theorem sign_equation_witness :
    ecdsa_do_sign refBN [255] (some (curveKey 7 ⟨none, none⟩)) [some 16] =
      Run.done ⟨some ⟨3, 13⟩, some ⟨none, none⟩, [], []⟩ ∧
    (17 : Int) ≤ BN_bin2bn [255] ∧
    ([255] : List (Fin 256)).length ≤ BN_num_bytes (17 : Nat) ∧
    ∃ kinv, UsedPair refBN (curveKey 7 ⟨none, none⟩) [some 16] [] kinv 3 ∧
      (13 : Int) = (kinv * (BN_bin2bn [255] + 7 * 3)) % (17 : Nat) :=
  ⟨by decide, by decide,
   sign_equation refBN refBN_sound [255] (curveKey 7 ⟨none, none⟩) curveGroup 17 7
     [some 16] ⟨some ⟨3, 13⟩, some ⟨none, none⟩, [], []⟩ ⟨3, 13⟩ rfl rfl rfl (by decide) rfl⟩

/-- The verifier on an in-range signature over a group of prime order, no
library call failing: with `w` the inverse of `s` and `X` the x-coordinate of
`u1*G + u2*Q`, the result is 1 when `X mod n = r` and 0 otherwise, and no
error is raised. -/
theorem ecdsa_do_verify_in_range [AddCommGroup Pt] (B : BN_LIB) (hB : B.Sound)
    (hT : B.Total) (group : EC_GROUP Pt) (G : Pt) (n : Nat) (hL : group.Lawful G n)
    (hp : n.Prime) (dgst : List (Fin 256)) (sig : ECDSA_SIG) (key : EC_KEY Pt) (Q : Pt)
    (hg : key.group = some group) (hQ : key.pub_key = some Q)
    (hr : 1 ≤ sig.r ∧ sig.r ≤ n - 1) (hs : 1 ≤ sig.s ∧ sig.s ≤ n - 1)
    (w : Int) (hw0 : 0 ≤ w) (hw1 : w < n) (hw : (sig.s * w) % n = 1)
    (X : Int)
    (hX : affine_x group (((BN_bin2bn dgst * w) % n) • G + ((sig.r * w) % n) • Q) = some X) :
    ecdsa_do_verify B dgst (some sig) (some key) = ⟨if X % n = sig.r then 1 else 0, []⟩ := by
  have hn0 : (n : Int) ≠ 0 := by omega
  have hnpos : (0 : Int) < n := by omega
  have hn2 : (2 : Int) ≤ n := by exact_mod_cast hp.two_le
  have h1n : (1 : Int) % n = 1 := Int.emod_eq_of_lt (by omega) (by omega)
  obtain ⟨w1, hw1x⟩ := hT.mod_inverse sig.s n hnpos
    (gcd_eq_one_of_lt_prime sig.s n hp (by omega) (by omega))
  obtain ⟨-, hw10, hw11, hsw1⟩ := hB.mod_inverse _ _ _ hw1x
  have hww : w1 = w := by
    have habs : |(n : Int)| = n := abs_of_pos hnpos
    rw [habs] at hw11
    apply eq_of_modEq_of_range w1 w n _ hw10 hw11 hw0 hw1
    have e1 : sig.s * w ≡ 1 [ZMOD n] := by
      show (sig.s * w) % n = 1 % n
      rw [hw, h1n]
    have e2 : w1 * (sig.s * w) ≡ w1 * 1 [ZMOD n] := e1.mul_left w1
    have e3 : sig.s * w1 * w ≡ 1 * w [ZMOD n] :=
      (show sig.s * w1 ≡ 1 [ZMOD n] from hsw1).mul_right w
    rw [mul_one] at e2
    rw [one_mul] at e3
    have e4 : w1 * (sig.s * w) = sig.s * w1 * w := by ring
    rw [e4] at e2
    exact e2.symm.trans e3
  subst hww
  obtain ⟨u1, hu1⟩ := hT.mod_mul (BN_bin2bn dgst) w1 n hn0
  obtain ⟨u2, hu2⟩ := hT.mod_mul sig.r w1 n hn0
  obtain ⟨-, hu1v⟩ := hB.mod_mul _ _ _ _ hu1
  obtain ⟨-, hu2v⟩ := hB.mod_mul _ _ _ _ hu2
  obtain ⟨v, hv⟩ := hT.nnmod X n hn0
  obtain ⟨-, hvv⟩ := hB.nnmod _ _ _ hv
  have hP : group.EC_POINT_mul (some u1) (some Q) (some u2) = some (u1 • G + u2 • Q) :=
    hL.mul_both u1 Q u2
  rw [← hu1v, ← hu2v] at hX
  have hfin := ecdsa_do_verify_eval B dgst sig key group Q n w1 u1 u2 X v _ hg hQ hL.order_eq
    (by omega) (by omega) (by omega) (by omega) hw1x hu1 hu2 hP hX hv
  rw [hfin, hvv]
  have hv0 : 0 ≤ X % n := Int.emod_nonneg _ hn0
  have hcmp : BN_ucmp (X % n) sig.r = 0 ↔ X % n = sig.r := by
    constructor
    · intro h
      exact BN_ucmp_eq_zero _ _ hv0 (by omega) h
    · intro h
      rw [h]; simp [BN_ucmp]
  by_cases hc : X % n = sig.r
  · rw [if_pos hc, if_pos (hcmp.2 hc)]
  · rw [if_neg hc, if_neg (fun h => hc (hcmp.1 h))]

/-- C3: verifier decision.  On a group of prime order `n`, for a signature
with `r` and `s` in `[1, n-1]`, with `w` the inverse of `s` modulo `n`,
`u1 = h*w mod n`, `u2 = r*w mod n`, and `X` the x-coordinate of
`u1*G + u2*Q` (no library call failing), `ecdsa_do_verify` returns 1 if and
only if `X mod n = r`, and returns 0 otherwise. -/
theorem verify_decision [AddCommGroup Pt] (B : BN_LIB) (hB : B.Sound) (hT : B.Total)
    (group : EC_GROUP Pt) (G : Pt) (n : Nat) (hL : group.Lawful G n) (hp : n.Prime)
    (dgst : List (Fin 256)) (sig : ECDSA_SIG) (key : EC_KEY Pt) (Q : Pt)
    (hg : key.group = some group) (hQ : key.pub_key = some Q)
    (hr : 1 ≤ sig.r ∧ sig.r ≤ n - 1) (hs : 1 ≤ sig.s ∧ sig.s ≤ n - 1)
    (w : Int) (hw0 : 0 ≤ w) (hw1 : w < n) (hw : (sig.s * w) % n = 1)
    (X : Int)
    (hX : affine_x group (((BN_bin2bn dgst * w) % n) • G + ((sig.r * w) % n) • Q) = some X) :
    ((ecdsa_do_verify B dgst (some sig) (some key)).ret = 1 ↔ X % n = sig.r) ∧
    (X % n ≠ sig.r → (ecdsa_do_verify B dgst (some sig) (some key)).ret = 0) := by
  rw [ecdsa_do_verify_in_range B hB hT group G n hL hp dgst sig key Q hg hQ hr hs w hw0 hw1
    hw X hX]
  constructor
  · by_cases hc : X % n = sig.r
    · simp [hc]
    · simp [hc]
  · intro hne
    simp [hne]

/-- C3 at a concrete input: on the 17-point curve group with public point
`7*G` and digest `[5]`, the signature `(3, 8)` has `w = 15`, the recombined
point has x-coordinate 3 and the verifier returns 1. -/
theorem verify_decision_witness :
    ((ecdsa_do_verify refBN [5] (some ⟨3, 8⟩) (some (curveKey 7 ⟨none, none⟩))).ret = 1 ↔
      (3 : Int) % (17 : Nat) = 3) ∧
    ((3 : Int) % (17 : Nat) ≠ 3 →
      (ecdsa_do_verify refBN [5] (some ⟨3, 8⟩) (some (curveKey 7 ⟨none, none⟩))).ret = 0) :=
  verify_decision refBN refBN_sound refBN_total curveGroup (1 : ZMod 17) 17 curveGroup_lawful
    (by norm_num) [5] ⟨3, 8⟩ (curveKey 7 ⟨none, none⟩) (7 : ZMod 17) rfl rfl
    (by decide) (by decide) 15 (by decide) (by decide) (by decide) 3 (by decide)

end VerifierDecision
section Ranges

variable {Pt : Type}

/-- The `r` a successful setup stores lies in `[1, n-1]`. -/
theorem setup_r_range (B : BN_LIB) (hB : B.Sound) (key : EC_KEY Pt) (group : EC_GROUP Pt)
    (n : Nat) (hg : key.group = some group) (hn : group.EC_GROUP_get_order = some n)
    (kinvp rp : Option Int) (mid rest : List (Option Int)) (kinv r : Int)
    (h : ECDSA_sign_setup B (some key) kinvp rp mid =
      Run.done ⟨1, some kinv, some r, rest, []⟩) :
    0 < r ∧ r < n := by
  unfold ECDSA_sign_setup at h
  obtain ⟨group1, Q, d, order, k, kinv1, r1, hg1, -, -, ho, hloop, -, hsu⟩ :=
    ecdsa_sign_setup_ok B key kinvp rp mid _ h (by simp)
  simp only [SetupResult.mk.injEq, Option.some.injEq, true_and, and_true] at hsu
  obtain ⟨-, rfl⟩ := hsu
  rw [hg] at hg1; cases hg1
  rw [hn] at ho; cases ho
  obtain ⟨pre, -, -, hr0, P, X, -, -, hr⟩ := sign_setup_loop_pair B group _ mid rest k r hloop
  obtain ⟨hn0, hrX⟩ := hB.nnmod _ _ _ hr
  have hnpos : (0 : Int) < n := by omega
  have h1 : 0 ≤ r := by rw [hrX]; exact Int.emod_nonneg _ hn0
  have h2 : r < n := by rw [hrX]; exact Int.emod_lt_of_pos _ hnpos
  exact ⟨by omega, h2⟩

/-- C4: range of produced signatures.  Every signature `(r, s)` returned by
`ecdsa_do_sign` whose pair `(kinv, r)` was produced by `ecdsa_sign_setup` has
`1 ≤ r ≤ n-1` and `1 ≤ s ≤ n-1` for the group order `n`.  The pair was
produced by the setup when the key's cache was not full or a nonce was drawn
during the call (the pair is then fresh), or when the cached pair is what an
earlier successful `ecdsa_sign_setup` on the group stored. -/
theorem signature_range (B : BN_LIB) (hB : B.Sound) (dgst : List (Fin 256))
    (key : EC_KEY Pt) (group : EC_GROUP Pt) (n : Nat) (data : ECDSA_DATA)
    (hg : key.group = some group) (hn : group.EC_GROUP_get_order = some n)
    (hdata : key.meth_data = some data)
    (rand : List (Option Int)) (res : SignResult) (sig : ECDSA_SIG)
    (hrun : ecdsa_do_sign B dgst (some key) rand = Run.done res)
    (hsig : res.ret = some sig)
    (hprov : ¬ data.full ∨ res.rand ≠ rand ∨
      ∃ kinv r, data = ⟨some kinv, some r⟩ ∧ ProducedBySetup B group kinv r) :
    1 ≤ sig.r ∧ sig.r ≤ n - 1 ∧ 1 ≤ sig.s ∧ sig.s ≤ n - 1 := by
  obtain ⟨group1, Q, d, n1, data1, hg1, -, hd, hdata1, hn1, -, hloop⟩ :=
    ecdsa_do_sign_run B dgst key rand res sig hrun hsig
  rw [hg] at hg1; cases hg1
  rw [hn] at hn1; cases hn1
  rw [hdata] at hdata1; cases hdata1
  have key_fact : (0 < sig.r ∧ sig.r < n) ∧
      ∃ kinv1, SignedWith B d n (BN_bin2bn dgst) kinv1 sig.r sig.s := by
    by_cases hc : data.full
    · obtain ⟨kinv0, r0, hdat⟩ : ∃ kinv0 r0, data = ⟨some kinv0, some r0⟩ := by
        rcases data with ⟨_ | a, _ | b⟩
        · exact absurd hc (by simp [ECDSA_DATA.full])
        · exact absurd hc (by simp [ECDSA_DATA.full])
        · exact absurd hc (by simp [ECDSA_DATA.full])
        · exact ⟨a, b, rfl⟩
      obtain ⟨-, -, h3⟩ := do_sign_loop_cached B key d n (BN_bin2bn dgst) _ _ res kinv0 r0
        hdat hloop
      rcases h3 sig hsig with ⟨hr, hrand, hsw⟩ | ⟨kinv1, kinvp, rp, mid, pre, k, -, -, hset, hsw⟩
      · rcases hprov with hf | hf | ⟨kinv2, r2, hdat2, key0, kinvp, rp, rand0, rest0, hg0, hset0⟩
        · exact absurd hc hf
        · exact absurd hrand hf
        · rw [hdat] at hdat2
          simp only [ECDSA_DATA.mk.injEq, Option.some.injEq] at hdat2
          obtain ⟨rfl, rfl⟩ := hdat2
          have hrange := setup_r_range B hB key0 group n hg0 hn kinvp rp rand0 rest0 kinv0 r0
            hset0
          rw [hr]
          exact ⟨hrange, kinv0, by rw [← hr]; exact hsw⟩
      · exact ⟨setup_r_range B hB key group n hg hn kinvp rp mid res.rand kinv1 sig.r hset,
          kinv1, hsw⟩
    · obtain ⟨-, -, h3⟩ := do_sign_loop_fresh B key d n (BN_bin2bn dgst) _ _ res hc hloop
      obtain ⟨kinv1, kinvp, rp, mid, pre, k, -, -, hset, hsw⟩ := h3 sig hsig
      exact ⟨setup_r_range B hB key group n hg hn kinvp rp mid res.rand kinv1 sig.r hset,
        kinv1, hsw⟩
  obtain ⟨⟨hr0, hr1⟩, kinv1, hsw⟩ := key_fact
  obtain ⟨hn0, hs0, hs⟩ := signedWith_eq B hB d n (BN_bin2bn dgst) kinv1 sig.r sig.s hsw
  have hnpos : (0 : Int) < n := by omega
  have hs1 : 0 ≤ sig.s := by rw [hs]; exact Int.emod_nonneg _ hn0
  have hs2 : sig.s < n := by rw [hs]; exact Int.emod_lt_of_pos _ hnpos
  exact ⟨by omega, by omega, by omega, by omega⟩

/-- C4 at two concrete inputs on the 17-point curve group with `d = 7` and
the digest `[5]`.  First the key caches `(kinv, r) = (16, 3)`, the pair a
setup stores for the nonce 16; the call signs with it, drawing nothing, and
returns `(3, 8)`.  Then the key caches `(13, 9)`, which gives `s = 0`; the
call draws the nonce 16 and returns `(3, 8)`.  Both halves are in `[1, 16]`. -/
theorem signature_range_witness :
    ecdsa_sign_setup refBN (some (curveKey 7 ⟨none, none⟩)) none none [some 16] =
      Run.done ⟨1, some 16, some 3, [], []⟩ ∧
    ecdsa_do_sign refBN [5] (some (curveKey 7 ⟨some 16, some 3⟩)) [some 1] =
      Run.done ⟨some ⟨3, 8⟩, some ⟨none, none⟩, [some 1], []⟩ ∧
    ecdsa_do_sign refBN [5] (some (curveKey 7 ⟨some 13, some 9⟩)) [some 16] =
      Run.done ⟨some ⟨3, 8⟩, some ⟨none, none⟩, [], []⟩ ∧
    ((1 : Int) ≤ 3 ∧ (3 : Int) ≤ (17 : Nat) - 1 ∧ (1 : Int) ≤ 8 ∧ (8 : Int) ≤ (17 : Nat) - 1) ∧
    ((1 : Int) ≤ 3 ∧ (3 : Int) ≤ (17 : Nat) - 1 ∧ (1 : Int) ≤ 8 ∧ (8 : Int) ≤ (17 : Nat) - 1) :=
  ⟨by decide, by decide, by decide,
   signature_range refBN refBN_sound [5] (curveKey 7 ⟨some 16, some 3⟩) curveGroup 17
     ⟨some 16, some 3⟩ rfl rfl rfl [some 1] ⟨some ⟨3, 8⟩, some ⟨none, none⟩, [some 1], []⟩
     ⟨3, 8⟩ (by decide) rfl
     (Or.inr (Or.inr ⟨16, 3, rfl, curveKey 7 ⟨none, none⟩, none, none, [some 16], [], rfl,
       by decide⟩)),
   signature_range refBN refBN_sound [5] (curveKey 7 ⟨some 13, some 9⟩) curveGroup 17
     ⟨some 13, some 9⟩ rfl rfl rfl [some 16] ⟨some ⟨3, 8⟩, some ⟨none, none⟩, [], []⟩ ⟨3, 8⟩
     (by decide) rfl (Or.inr (Or.inl (by decide)))⟩

/-- C5: range rejection in verification.  With group and public point present
and `n` the order of the group, a signature whose `r` or `s` is zero, negative
or at least `n` makes `ecdsa_do_verify` return 0 with the error
`ECDSA_R_BAD_SIGNATURE`, whatever the arithmetic library, the point operations,
the digest and the public point are: no inverse, product or point
multiplication is consulted. -/
theorem verify_rejects_out_of_range (B : BN_LIB) (dgst : List (Fin 256)) (sig : ECDSA_SIG)
    (key : EC_KEY Pt) (group : EC_GROUP Pt) (Q : Pt) (n : Nat)
    (hg : key.group = some group) (hQ : key.pub_key = some Q)
    (hn : group.EC_GROUP_get_order = some n)
    (h : sig.r ≤ 0 ∨ (n : Int) ≤ sig.r ∨ sig.s ≤ 0 ∨ (n : Int) ≤ sig.s) :
    ecdsa_do_verify B dgst (some sig) (some key) =
      ⟨0, [(ErrFunc.ECDSA_F_ECDSA_DO_VERIFY, ErrReason.ECDSA_R_BAD_SIGNATURE)]⟩ ∧
    ∀ (B2 : BN_LIB) (dgst2 : List (Fin 256)) (Q2 : Pt) (group2 : EC_GROUP Pt),
      group2.EC_GROUP_get_order = some n →
      ecdsa_do_verify B2 dgst2 (some sig)
          (some ⟨some group2, some Q2, key.priv_key, key.meth_data⟩) =
        ecdsa_do_verify B dgst (some sig) (some key) := by
  have h1 := ecdsa_do_verify_out B dgst sig key group Q n hg hQ hn h
  refine ⟨h1, ?_⟩
  intro B2 dgst2 Q2 group2 hn2
  rw [h1]
  exact ecdsa_do_verify_out B2 dgst2 sig _ group2 Q2 n rfl rfl hn2 h

/-- C5 at a concrete input: `s = 17 = n` is rejected with 0 on the 17-point
curve group, also by a library whose every call fails. -/
theorem verify_rejects_out_of_range_witness :
    ecdsa_do_verify refBN [5] (some ⟨3, 17⟩) (some (curveKey 7 ⟨none, none⟩)) =
      ⟨0, [(ErrFunc.ECDSA_F_ECDSA_DO_VERIFY, ErrReason.ECDSA_R_BAD_SIGNATURE)]⟩ ∧
    ecdsa_do_verify ⟨fun _ _ => none, fun _ _ _ => none, fun _ _ => none⟩ [9, 9] (some ⟨3, 17⟩)
        (some ⟨some curveGroup, some (2 : ZMod 17), some 7, some ⟨none, none⟩⟩) =
      ecdsa_do_verify refBN [5] (some ⟨3, 17⟩) (some (curveKey 7 ⟨none, none⟩)) :=
  have h := verify_rejects_out_of_range refBN [5] ⟨3, 17⟩ (curveKey 7 ⟨none, none⟩)
    curveGroup (7 : ZMod 17) 17 rfl rfl rfl (by decide)
  ⟨h.1, h.2 ⟨fun _ _ => none, fun _ _ _ => none, fun _ _ => none⟩ [9, 9] (2 : ZMod 17)
    curveGroup rfl⟩

end Ranges
section Acceptance

variable {Pt : Type}

end Acceptance
section RejectValue

variable {Pt : Type}

/-- C6, as stated, fails: on the 17-point curve group with public point `7*G`
and digest `[5]`, the malformed signature `(0, 8)` and the in-range signature
`(3, 5)`, whose recomputed x-coordinate reduces to 8 and not to 3, get the
same return value 0. -/
theorem malformed_returns_reject_value :
    (ecdsa_do_verify refBN [5] (some ⟨0, 8⟩) (some (curveKey 7 ⟨none, none⟩))).ret = 0 ∧
    ((1 : Int) ≤ 3 ∧ (3 : Int) ≤ 17 - 1 ∧ (1 : Int) ≤ 5 ∧ (5 : Int) ≤ 17 - 1) ∧
    ((5 : Int) * 7) % 17 = 1 ∧
    affine_x curveGroup
      (((BN_bin2bn [5] * 7) % 17) • (1 : ZMod 17) + (((3 : Int) * 7) % 17) • (7 : ZMod 17)) =
        some 8 ∧
    (8 : Int) % 17 ≠ 3 ∧
    (ecdsa_do_verify refBN [5] (some ⟨3, 5⟩) (some (curveKey 7 ⟨none, none⟩))).ret = 0 ∧
    (ecdsa_do_verify refBN [5] (some ⟨0, 8⟩) (some (curveKey 7 ⟨none, none⟩))).ret =
      (ecdsa_do_verify refBN [5] (some ⟨3, 5⟩) (some (curveKey 7 ⟨none, none⟩))).ret := by
  decide

/-- C6, amended: a malformed signature (`r` or `s` zero, negative or at least
`n`) and an in-range signature whose recomputed x-coordinate does not reduce
to `r` both make `ecdsa_do_verify` return 0; the first call raises
`ECDSA_R_BAD_SIGNATURE` and the second raises no error, and 0 differs from the
-1 of the failure paths. -/
theorem malformed_differs_only_in_error [AddCommGroup Pt] (B : BN_LIB) (hB : B.Sound)
    (hT : B.Total) (group : EC_GROUP Pt) (G : Pt) (n : Nat) (hL : group.Lawful G n)
    (hp : n.Prime) (dgst : List (Fin 256)) (key : EC_KEY Pt) (Q : Pt)
    (hg : key.group = some group) (hQ : key.pub_key = some Q)
    (bad : ECDSA_SIG)
    (hbad : bad.r ≤ 0 ∨ (n : Int) ≤ bad.r ∨ bad.s ≤ 0 ∨ (n : Int) ≤ bad.s)
    (sig : ECDSA_SIG) (hr : 1 ≤ sig.r ∧ sig.r ≤ n - 1) (hs : 1 ≤ sig.s ∧ sig.s ≤ n - 1)
    (w : Int) (hw0 : 0 ≤ w) (hw1 : w < n) (hw : (sig.s * w) % n = 1) (X : Int)
    (hX : affine_x group (((BN_bin2bn dgst * w) % n) • G + ((sig.r * w) % n) • Q) = some X)
    (hne : X % n ≠ sig.r) :
    ecdsa_do_verify B dgst (some bad) (some key) =
      ⟨0, [(ErrFunc.ECDSA_F_ECDSA_DO_VERIFY, ErrReason.ECDSA_R_BAD_SIGNATURE)]⟩ ∧
    ecdsa_do_verify B dgst (some sig) (some key) = ⟨0, []⟩ ∧
    (ecdsa_do_verify B dgst (some bad) (some key)).ret =
      (ecdsa_do_verify B dgst (some sig) (some key)).ret ∧
    (ecdsa_do_verify B dgst (some bad) (some key)).ret ≠ -1 := by
  have h1 := ecdsa_do_verify_out B dgst bad key group Q n hg hQ hL.order_eq hbad
  have h2 := ecdsa_do_verify_in_range B hB hT group G n hL hp dgst sig key Q hg hQ hr hs w
    hw0 hw1 hw X hX
  rw [if_neg hne] at h2
  refine ⟨h1, h2, ?_, ?_⟩
  · rw [h1, h2]
  · rw [h1]; decide

/-- C6, amended, at a concrete input: the malformed `(0, 8)` and the
non-verifying `(3, 5)` on the 17-point curve group. -/
theorem malformed_differs_only_in_error_witness :
    ecdsa_do_verify refBN [5] (some ⟨0, 8⟩) (some (curveKey 7 ⟨none, none⟩)) =
      ⟨0, [(ErrFunc.ECDSA_F_ECDSA_DO_VERIFY, ErrReason.ECDSA_R_BAD_SIGNATURE)]⟩ ∧
    ecdsa_do_verify refBN [5] (some ⟨3, 5⟩) (some (curveKey 7 ⟨none, none⟩)) = ⟨0, []⟩ ∧
    (ecdsa_do_verify refBN [5] (some ⟨0, 8⟩) (some (curveKey 7 ⟨none, none⟩))).ret =
      (ecdsa_do_verify refBN [5] (some ⟨3, 5⟩) (some (curveKey 7 ⟨none, none⟩))).ret ∧
    (ecdsa_do_verify refBN [5] (some ⟨0, 8⟩) (some (curveKey 7 ⟨none, none⟩))).ret ≠ -1 :=
  malformed_differs_only_in_error refBN refBN_sound refBN_total curveGroup (1 : ZMod 17) 17
    curveGroup_lawful (by norm_num) [5] (curveKey 7 ⟨none, none⟩) (7 : ZMod 17) rfl rfl
    ⟨0, 8⟩ (by decide) ⟨3, 5⟩ (by decide) (by decide) 7 (by decide) (by decide) (by decide)
    8 (by decide) (by decide)

/-- C7: nonce generator postcondition.  Whenever `ecdsa_sign_setup` returns 1
on draws that `BN_rand_range` took from `[0, n)`, the pair `(kinv, r)` it
stores satisfies, for the scalar `k` it last drew: `1 ≤ k ≤ n-1`,
`r = x(k*G) mod n`, `r ≠ 0` and `(kinv * k) mod n = 1`. -/
theorem sign_setup_postcondition [AddCommGroup Pt] (B : BN_LIB) (hB : B.Sound)
    (group : EC_GROUP Pt) (G : Pt) (n : Nat) (hL : group.Lawful G n)
    (key : EC_KEY Pt) (hg : key.group = some group)
    (kinvp rp : Option Int) (rand : List (Option Int)) (su : SetupResult)
    (hdraws : ∀ k : Int, some k ∈ rand → 0 ≤ k ∧ k < n)
    (h : ecdsa_sign_setup B (some key) kinvp rp rand = Run.done su) (hret : su.ret = 1) :
    ∃ (k kinv r X : Int) (pre : List (Option Int)),
      rand = pre ++ some k :: su.rand ∧ su.kinvp = some kinv ∧ su.rp = some r ∧
      1 ≤ k ∧ k ≤ n - 1 ∧ affine_x group (k • G) = some X ∧ r = X % n ∧ r ≠ 0 ∧
      (kinv * k) % n = 1 := by
  obtain ⟨group1, Q, d, order, k0, kinv, r, -, -, -, -, -, -, hsu⟩ :=
    ecdsa_sign_setup_ok B key kinvp rp rand su h (by rw [hret]; decide)
  have h1 : ECDSA_sign_setup B (some key) kinvp rp rand =
      Run.done ⟨1, some kinv, some r, su.rand, []⟩ := by
    unfold ECDSA_sign_setup
    rw [h]
    exact congrArg Run.done hsu
  obtain ⟨k, X, pre, hpre, hk0, hn0, hki, hX, hrX, hr0⟩ :=
    setup_pair_facts B hB key group G n hL hg kinvp rp rand su.rand kinv r h1
  have hmem : some k ∈ rand := by rw [hpre]; simp
  obtain ⟨hk1, hk2⟩ := hdraws k hmem
  have hn2 : (2 : Int) ≤ n := by omega
  have h1n : (1 : Int) % n = 1 := Int.emod_eq_of_lt (by omega) (by omega)
  have hkk : (kinv * k) % n = 1 := by
    have e : (k * kinv) % n = 1 % n := hki
    rw [h1n, mul_comm] at e
    exact e
  refine ⟨k, kinv, r, X, pre, hpre, ?_, ?_, by omega, by omega, hX, hrX, hr0, hkk⟩
  · rw [hsu]
  · rw [hsu]

/-- C7 at a concrete input: on the 17-point curve group the draws `0, 6, 5`
are consumed, the zero and the draw 6 (whose `r` is `17 mod 17 = 0`) are
skipped, and the setup stores `(kinv, r) = (7, 8)` for `k = 5`. -/
theorem sign_setup_postcondition_witness :
    ecdsa_sign_setup refBN (some (curveKey 7 ⟨none, none⟩)) none none
        [some 0, some 6, some 5, some 9] = Run.done ⟨1, some 7, some 8, [some 9], []⟩ ∧
    ∃ (k kinv r X : Int) (pre : List (Option Int)),
      [some 0, some 6, some 5, some 9] = pre ++ some k :: [some 9] ∧
      (some 7 : Option Int) = some kinv ∧ (some 8 : Option Int) = some r ∧
      1 ≤ k ∧ k ≤ (17 : Nat) - 1 ∧ affine_x curveGroup (k • (1 : ZMod 17)) = some X ∧
      r = X % (17 : Nat) ∧ r ≠ 0 ∧ (kinv * k) % (17 : Nat) = 1 :=
  ⟨by decide,
   sign_setup_postcondition refBN refBN_sound curveGroup (1 : ZMod 17) 17 curveGroup_lawful
     (curveKey 7 ⟨none, none⟩) rfl none none [some 0, some 6, some 5, some 9]
     ⟨1, some 7, some 8, [some 9], []⟩
     (by
       intro k hk
       simp only [List.mem_cons, Option.some.injEq, List.mem_singleton, List.not_mem_nil,
         or_false] at hk
       rcases hk with h | h | h | h <;> subst h <;> decide)
     (by decide) rfl⟩

end RejectValue
section NonceCache

variable {Pt : Type}

/-- A call of `ecdsa_do_sign` on a complete key with a digest that is not too
long is the signing loop started from the key's cache. -/
theorem ecdsa_do_sign_valid (B : BN_LIB) (dgst : List (Fin 256)) (key : EC_KEY Pt)
    (group : EC_GROUP Pt) (Q : Pt) (d : Int) (data : ECDSA_DATA) (n : Nat)
    (hg : key.group = some group) (hQ : key.pub_key = some Q) (hd : key.priv_key = some d)
    (hdata : key.meth_data = some data) (hn : group.EC_GROUP_get_order = some n)
    (hlen : dgst.length ≤ BN_num_bytes n) (rand : List (Option Int)) :
    ecdsa_do_sign B dgst (some key) rand =
      do_sign_loop B key d n (BN_bin2bn dgst) (rand.length + 2) ⟨data, none, none, rand⟩ := by
  unfold ecdsa_do_sign ecdsa_check
  simp only [hg, hQ, hd, hdata, hn]
  rw [if_neg (by omega)]

/-- C8: one-shot nonce cache.  If `ecdsa_do_sign` is called on a key whose
cache holds a pair and the call passes the key and digest-length checks, then
when it returns, with a signature or without, the cache is empty; and a later
`ecdsa_do_sign` on the key in that state, when it returns a signature, has
computed it from a pair that a successful `ECDSA_sign_setup` stored during
that later call, on draws of that call. -/
theorem nonce_cache_one_shot (B : BN_LIB) (dgst : List (Fin 256)) (key : EC_KEY Pt)
    (group : EC_GROUP Pt) (Q : Pt) (d : Int) (kinv r : Int) (n : Nat)
    (hg : key.group = some group) (hQ : key.pub_key = some Q) (hd : key.priv_key = some d)
    (hdata : key.meth_data = some ⟨some kinv, some r⟩)
    (hn : group.EC_GROUP_get_order = some n) (hlen : dgst.length ≤ BN_num_bytes n)
    (rand : List (Option Int)) (res : SignResult)
    (hrun : ecdsa_do_sign B dgst (some key) rand = Run.done res) :
    res.ecdsa = some ⟨none, none⟩ ∧
    ∀ (dgst2 : List (Fin 256)) (rand2 : List (Option Int)) (res2 : SignResult)
      (sig2 : ECDSA_SIG),
      ecdsa_do_sign B dgst2 (some ⟨key.group, key.pub_key, key.priv_key, res.ecdsa⟩) rand2 =
        Run.done res2 →
      res2.ret = some sig2 →
      res2.ecdsa = some ⟨none, none⟩ ∧
      ∃ kinv2 kinvp rp mid pre k, mid <:+ rand2 ∧ mid = pre ++ some k :: res2.rand ∧
        ECDSA_sign_setup B (some ⟨key.group, key.pub_key, key.priv_key, res.ecdsa⟩)
            kinvp rp mid =
          Run.done ⟨1, some kinv2, some sig2.r, res2.rand, []⟩ ∧
        SignedWith B d n (BN_bin2bn dgst2) kinv2 sig2.r sig2.s := by
  rw [ecdsa_do_sign_valid B dgst key group Q d _ n hg hQ hd hdata hn hlen rand] at hrun
  obtain ⟨h1, -, -⟩ := do_sign_loop_cached B key d n (BN_bin2bn dgst) _ _ res kinv r rfl hrun
  refine ⟨h1, ?_⟩
  intro dgst2 rand2 res2 sig2 hrun2 hsig2
  rw [h1] at hrun2 ⊢
  obtain ⟨group1, Q1, d1, n1, data1, hg1, -, hd1, hdata1, hn1, -, hloop⟩ :=
    ecdsa_do_sign_run B dgst2 _ rand2 res2 sig2 hrun2 hsig2
  simp only at hg1 hd1 hdata1
  rw [hg] at hg1; cases hg1
  rw [hd] at hd1; cases hd1
  rw [hn] at hn1; cases hn1
  cases hdata1
  have hnf : ¬ (ECDSA_DATA.mk none none).full := by simp [ECDSA_DATA.full]
  obtain ⟨h2, -, h3⟩ := do_sign_loop_fresh B _ d n (BN_bin2bn dgst2) _ _ res2 hnf hloop
  exact ⟨h2, h3 sig2 hsig2⟩

/-- C8 at a concrete input: the key caches `(kinv, r) = (16, 3)`; the first
call signs digest `[5]` with it, drawing nothing, and empties the cache; the
second call on the key in that state signs `[8]` and draws the nonce 1. -/
theorem nonce_cache_one_shot_witness :
    ecdsa_do_sign refBN [5] (some (curveKey 7 ⟨some 16, some 3⟩)) [some 1] =
      Run.done ⟨some ⟨3, 8⟩, some ⟨none, none⟩, [some 1], []⟩ ∧
    ecdsa_do_sign refBN [8] (some (curveKey 7 ⟨none, none⟩)) [some 1] =
      Run.done ⟨some ⟨3, 12⟩, some ⟨none, none⟩, [], []⟩ ∧
    ∃ kinv2 kinvp rp mid pre k, mid <:+ [some 1] ∧ mid = pre ++ some k :: [] ∧
      ECDSA_sign_setup refBN (some (curveKey 7 ⟨none, none⟩)) kinvp rp mid =
        Run.done ⟨1, some kinv2, some 3, [], []⟩ ∧
      SignedWith refBN 7 (17 : Nat) (BN_bin2bn [8]) kinv2 3 12 :=
  ⟨by decide, by decide,
   ((nonce_cache_one_shot refBN [5] (curveKey 7 ⟨some 16, some 3⟩) curveGroup (7 : ZMod 17) 7
      16 3 17 rfl rfl rfl rfl rfl (by decide) [some 1]
      ⟨some ⟨3, 8⟩, some ⟨none, none⟩, [some 1], []⟩ (by decide)).2 [8] [some 1]
      ⟨some ⟨3, 12⟩, some ⟨none, none⟩, [], []⟩ ⟨3, 12⟩ (by decide) rfl).2⟩

/-- C9: over-long digest.  When the digest is longer than the byte length of
the group order, `ecdsa_do_sign` returns `NULL`, leaves the key's cache as it
was and draws nothing, whatever the bytes of the digest and the arithmetic
library are; on a complete key the error is
`ECDSA_R_DATA_TOO_LARGE_FOR_KEY_SIZE`. -/
theorem overlong_digest_rejected (B : BN_LIB) (dgst : List (Fin 256)) (key : EC_KEY Pt)
    (group : EC_GROUP Pt) (n : Nat) (rand : List (Option Int))
    (hg : key.group = some group) (hn : group.EC_GROUP_get_order = some n)
    (hlen : BN_num_bytes n < dgst.length) :
    ∃ e, ecdsa_do_sign B dgst (some key) rand = Run.done ⟨none, key.meth_data, rand, e⟩ ∧
      (key.pub_key ≠ none → key.priv_key ≠ none → key.meth_data ≠ none →
        e = [(ErrFunc.ECDSA_F_ECDSA_DO_SIGN,
              ErrReason.ECDSA_R_DATA_TOO_LARGE_FOR_KEY_SIZE)]) := by
  unfold ecdsa_do_sign ecdsa_check
  simp only
  split
  · rename_i group1 Q d data hg1 hQ hd hdata
    rw [hg] at hg1; cases hg1
    simp only [hn]
    rw [if_pos (by omega)]
    exact ⟨_, rfl, fun _ _ _ => rfl⟩
  · rename_i hno
    refine ⟨_, rfl, ?_⟩
    intro h1 h2 h3
    exfalso
    obtain ⟨Q, hQ⟩ := Option.ne_none_iff_exists'.1 h1
    obtain ⟨d, hd⟩ := Option.ne_none_iff_exists'.1 h2
    obtain ⟨data, hdata⟩ := Option.ne_none_iff_exists'.1 h3
    exact hno group Q d data hg hQ hd hdata

/-- C9 at a concrete input: the order 17 has one byte, the two-byte digest
`[0, 5]` is refused, the cached pair and the draw stay. -/
theorem overlong_digest_rejected_witness :
    BN_num_bytes (17 : Nat) < ([0, 5] : List (Fin 256)).length ∧
    ∃ e, ecdsa_do_sign refBN [0, 5] (some (curveKey 7 ⟨some 16, some 3⟩)) [some 1] =
        Run.done ⟨none, (curveKey 7 ⟨some 16, some 3⟩).meth_data, [some 1], e⟩ ∧
      ((curveKey 7 ⟨some 16, some 3⟩).pub_key ≠ none →
        (curveKey 7 ⟨some 16, some 3⟩).priv_key ≠ none →
        (curveKey 7 ⟨some 16, some 3⟩).meth_data ≠ none →
        e = [(ErrFunc.ECDSA_F_ECDSA_DO_SIGN,
              ErrReason.ECDSA_R_DATA_TOO_LARGE_FOR_KEY_SIZE)]) :=
  ⟨by decide,
   overlong_digest_rejected refBN [0, 5] (curveKey 7 ⟨some 16, some 3⟩) curveGroup 17
     [some 1] rfl rfl (by decide)⟩

end NonceCache
section Tampering

variable {Pt : Type}

end Tampering
section Adequacy

variable {Pt : Type}

/-- The bound on the passes of the signing loop is never the reason a run
stops: once `fuel` exceeds the number of draws left by one (by two when the
cache is full), more fuel gives the same outcome. -/
theorem do_sign_loop_fuel (B : BN_LIB) (key : EC_KEY Pt) (d n m : Int) :
    ∀ (fuel : Nat) (st : SignState),
      (¬ st.ecdsa.full → st.rand.length + 1 ≤ fuel) →
      (st.ecdsa.full → st.rand.length + 2 ≤ fuel) →
      ∀ more : Nat, do_sign_loop B key d n m (fuel + more) st =
        do_sign_loop B key d n m fuel st := by
  intro fuel
  induction fuel with
  | zero =>
    intro st h1 h2 more
    by_cases hc : st.ecdsa.full
    · have := h2 hc; omega
    · have := h1 hc; omega
  | succ fuel ih =>
    intro st h1 h2 more
    have e : fuel + 1 + more = (fuel + more) + 1 := by omega
    rw [e]
    simp only [do_sign_loop]
    by_cases hc : st.ecdsa.full
    · obtain ⟨kinv0, r0, hdat⟩ : ∃ kinv0 r0, st.ecdsa = ⟨some kinv0, some r0⟩ := by
        rcases hst : st.ecdsa with ⟨_ | a, _ | b⟩
        · rw [hst] at hc; exact absurd hc (by simp [ECDSA_DATA.full])
        · rw [hst] at hc; exact absurd hc (by simp [ECDSA_DATA.full])
        · rw [hst] at hc; exact absurd hc (by simp [ECDSA_DATA.full])
        · exact ⟨a, b, rfl⟩
      rw [sign_body_cached B key d n m st kinv0 r0 hdat]
      rcases sign_arith_cases B d n m ⟨⟨none, none⟩, some kinv0, some r0, st.rand⟩ kinv0 r0
        with ha | ⟨e1, ha⟩ | ⟨s, ha, -⟩
      · rw [ha]
        simp only
        apply ih
        · intro _
          have := h2 hc
          simp only
          omega
        · intro hf
          exact absurd hf (by simp [ECDSA_DATA.full])
      · rw [ha]
      · rw [ha]
    · rcases sign_body_fresh B key d n m st hc with hb | ⟨su, hsu, hb | hb⟩
      · rw [hb]
      · rw [hb.2]
      · obtain ⟨hret, kinv, r, hsu1, hb⟩ := hb
        obtain ⟨pre, k, hpre⟩ := ecdsa_sign_setup_rest B key _ _ _ su hsu hret
        rw [hb]
        rcases sign_arith_cases B d n m ⟨st.ecdsa, some kinv, some r, su.rand⟩ kinv r
          with ha | ⟨e1, ha⟩ | ⟨s, ha, -⟩
        · rw [ha]
          simp only
          apply ih
          · intro _
            have h3 := h1 hc
            have h4 : st.rand.length = pre.length + (su.rand.length + 1) := by
              rw [hpre]; simp
            simp only
            omega
          · intro hf
            exact absurd hf hc
        · rw [ha]
        · rw [ha]

/-- The multiples of `(3, 9)` lie on the curve, the 17th multiple is the point
at infinity and no earlier positive multiple is. -/
theorem curveMul_on_curve :
    curveMul 17 = none ∧
    ∀ k : Fin 17, onCurve (curveMul k.val) = true ∧ (curveMul k.val = none → k.val = 0) := by
  decide

/-- Adding indices modulo 17 is adding points on the curve. -/
theorem curveMul_add : ∀ i j : Fin 17,
    curveAdd (curveMul i.val) (curveMul j.val) = curveMul ((i.val + j.val) % 17) := by
  decide

end Adequacy

section WrongKey

variable {Pt : Type}

end WrongKey

section KeyMaterial

variable {Pt : Type}

/-- With signing material missing, `ecdsa_do_sign` returns `NULL`, draws
nothing and leaves the cache alone. -/
theorem ecdsa_do_sign_absent (B : BN_LIB) (dgst : List (Fin 256)) (eckey : Option (EC_KEY Pt))
    (rand : List (Option Int)) (h : SignMaterialAbsent eckey) :
    ecdsa_do_sign B dgst eckey rand =
      Run.done ⟨none, ecdsa_check eckey, rand,
        [(ErrFunc.ECDSA_F_ECDSA_DO_SIGN, ErrReason.ERR_R_PASSED_NULL_PARAMETER)]⟩ := by
  unfold ecdsa_do_sign
  cases eckey with
  | none => rfl
  | some key =>
    simp only [SignMaterialAbsent] at h
    simp only
    split
    · rename_i hg hQ hd _
      rcases h with h | h | h
      · rw [hg] at h; simp at h
      · rw [hQ] at h; simp at h
      · rw [hd] at h; simp at h
    · rfl

/-- With signing material missing, `ecdsa_sign_setup` returns 0, draws nothing
and leaves the output slots alone. -/
theorem ecdsa_sign_setup_absent (B : BN_LIB) (eckey : Option (EC_KEY Pt))
    (kinvp rp : Option Int) (rand : List (Option Int)) (h : SignMaterialAbsent eckey) :
    ecdsa_sign_setup B eckey kinvp rp rand =
      Run.done ⟨0, kinvp, rp, rand,
        [(ErrFunc.ECDSA_F_ECDSA_SIGN_SETUP, ErrReason.ERR_R_PASSED_NULL_PARAMETER)]⟩ := by
  unfold ecdsa_sign_setup
  cases eckey with
  | none => rfl
  | some key =>
    simp only [SignMaterialAbsent] at h
    simp only
    split
    · rename_i hg hQ hd
      rcases h with h | h | h
      · rw [hg] at h; simp at h
      · rw [hQ] at h; simp at h
      · rw [hd] at h; simp at h
    · rfl

/-- With a verifier argument missing, `ecdsa_do_verify` returns -1. -/
theorem ecdsa_do_verify_absent (B : BN_LIB) (dgst : List (Fin 256)) (sig : Option ECDSA_SIG)
    (eckey : Option (EC_KEY Pt)) (h : VerifyMaterialAbsent sig eckey) :
    ecdsa_do_verify B dgst sig eckey =
      ⟨-1, [(ErrFunc.ECDSA_F_ECDSA_DO_VERIFY, ErrReason.ECDSA_R_MISSING_PARAMETERS)]⟩ := by
  unfold ecdsa_do_verify
  split
  · rename_i key sg
    simp only [VerifyMaterialAbsent] at h
    split
    · rename_i hg hQ
      rcases h with h | h | h
      · simp at h
      · rw [hg] at h; simp at h
      · rw [hQ] at h; simp at h
    · rfl
  · rfl

/-- C12: required key material.  When the key, its group, its public point or
its private scalar is absent, `ecdsa_do_sign` returns `NULL` and
`ecdsa_sign_setup` returns 0, no nonce is drawn and cache and output slots
are unchanged.  When the key, its group, its public point or the signature is
absent, `ecdsa_do_verify` returns -1.  With group, public point and signature
present and the private scalar absent, `ecdsa_do_verify` returns 0 or 1 when
no library call fails. -/
theorem required_key_material [AddCommGroup Pt] (B : BN_LIB) (hB : B.Sound) (hT : B.Total)
    (group : EC_GROUP Pt) (G : Pt) (n : Nat) (hL : group.Lawful G n) (hp : n.Prime)
    (dgst : List (Fin 256)) (rand : List (Option Int)) (kinvp rp : Option Int)
    (bad : Option (EC_KEY Pt)) (hbad : SignMaterialAbsent bad)
    (sigv : Option ECDSA_SIG) (keyv : Option (EC_KEY Pt)) (hv : VerifyMaterialAbsent sigv keyv)
    (Q : Pt) (sig : ECDSA_SIG) (cache : Option ECDSA_DATA)
    (hx : ∀ w : Int, 0 ≤ w → w < n → (sig.s * w) % n = 1 →
      ∃ X, affine_x group (((BN_bin2bn dgst * w) % n) • G + ((sig.r * w) % n) • Q) = some X) :
    ecdsa_do_sign B dgst bad rand =
      Run.done ⟨none, ecdsa_check bad, rand,
        [(ErrFunc.ECDSA_F_ECDSA_DO_SIGN, ErrReason.ERR_R_PASSED_NULL_PARAMETER)]⟩ ∧
    ecdsa_sign_setup B bad kinvp rp rand =
      Run.done ⟨0, kinvp, rp, rand,
        [(ErrFunc.ECDSA_F_ECDSA_SIGN_SETUP, ErrReason.ERR_R_PASSED_NULL_PARAMETER)]⟩ ∧
    (ecdsa_do_verify B dgst sigv keyv).ret = -1 ∧
    ((ecdsa_do_verify B dgst (some sig) (some ⟨some group, some Q, none, cache⟩)).ret = 0 ∨
     (ecdsa_do_verify B dgst (some sig) (some ⟨some group, some Q, none, cache⟩)).ret = 1) := by
  refine ⟨ecdsa_do_sign_absent B dgst bad rand hbad,
    ecdsa_sign_setup_absent B bad kinvp rp rand hbad, ?_, ?_⟩
  · rw [ecdsa_do_verify_absent B dgst sigv keyv hv]
  · by_cases hin : (1 ≤ sig.r ∧ sig.r ≤ n - 1) ∧ (1 ≤ sig.s ∧ sig.s ≤ n - 1)
    · obtain ⟨hr, hs⟩ := hin
      have hnpos : (0 : Int) < n := by omega
      have hn2 : (2 : Int) ≤ n := by exact_mod_cast hp.two_le
      have h1n : (1 : Int) % n = 1 := Int.emod_eq_of_lt (by omega) (by omega)
      obtain ⟨w, hw⟩ := hT.mod_inverse sig.s n hnpos
        (gcd_eq_one_of_lt_prime sig.s n hp (by omega) (by omega))
      obtain ⟨-, hw0, hw1, hsw⟩ := hB.mod_inverse _ _ _ hw
      rw [abs_of_pos hnpos] at hw1
      rw [h1n] at hsw
      obtain ⟨X, hX⟩ := hx w hw0 hw1 hsw
      rw [ecdsa_do_verify_in_range B hB hT group G n hL hp dgst sig _ Q rfl rfl hr hs w hw0
        hw1 hsw X hX]
      by_cases hc : X % n = sig.r
      · right; simp [hc]
      · left; simp [hc]
    · left
      rw [ecdsa_do_verify_out B dgst sig _ group Q n rfl rfl hL.order_eq (by omega)]

/-- C12 at a concrete input on the 17-point curve group: a key without
private scalar cannot sign or set up, a missing signature gives -1, and the
same key verifies `(3, 8)` for the digest `[5]`. -/
theorem required_key_material_witness :
    ecdsa_do_sign refBN [5] (some ⟨some curveGroup, some (7 : ZMod 17), none,
        some ⟨some 16, some 3⟩⟩) [some 16] =
      Run.done ⟨none, some ⟨some 16, some 3⟩, [some 16],
        [(ErrFunc.ECDSA_F_ECDSA_DO_SIGN, ErrReason.ERR_R_PASSED_NULL_PARAMETER)]⟩ ∧
    ecdsa_sign_setup refBN (some ⟨some curveGroup, some (7 : ZMod 17), none,
        some ⟨some 16, some 3⟩⟩) (some 4) none [some 16] =
      Run.done ⟨0, some 4, none, [some 16],
        [(ErrFunc.ECDSA_F_ECDSA_SIGN_SETUP, ErrReason.ERR_R_PASSED_NULL_PARAMETER)]⟩ ∧
    (ecdsa_do_verify refBN [5] none (some (curveKey 7 ⟨none, none⟩))).ret = -1 ∧
    ((ecdsa_do_verify refBN [5] (some ⟨3, 8⟩)
        (some ⟨some curveGroup, some (7 : ZMod 17), none, none⟩)).ret = 0 ∨
     (ecdsa_do_verify refBN [5] (some ⟨3, 8⟩)
        (some ⟨some curveGroup, some (7 : ZMod 17), none, none⟩)).ret = 1) :=
  required_key_material refBN refBN_sound refBN_total curveGroup (1 : ZMod 17) 17
    curveGroup_lawful (by norm_num) [5] [some 16] (some 4) none
    (some ⟨some curveGroup, some (7 : ZMod 17), none, some ⟨some 16, some 3⟩⟩)
    (Or.inr (Or.inr rfl)) none (some (curveKey 7 ⟨none, none⟩)) (Or.inl rfl)
    (7 : ZMod 17) ⟨3, 8⟩ none
    (by
      intro w h0 h1 hw
      have hw15 : w = 15 := by
        simp only [Nat.cast_ofNat] at h1 hw
        omega
      subst hw15
      exact ⟨3, by decide⟩)

end KeyMaterial

section Propagation

variable {Pt : Type}

/-- Draws that are redrawn leave no trace: the loop of `ecdsa_sign_setup`
continues with the draws after them. -/
theorem sign_setup_loop_skip (B : BN_LIB) (group : EC_GROUP Pt) (order : Int)
    (tl : List (Option Int)) :
    ∀ pre : List Int, (∀ k ∈ pre, Redrawn B group order k) →
      sign_setup_loop B group order (pre.map some ++ tl) = sign_setup_loop B group order tl := by
  intro pre
  induction pre with
  | nil => intro _; rfl
  | cons k pre ih =>
    intro h
    have hk := h k (List.mem_cons_self k pre)
    have ih1 := ih (fun x hx => h x (List.mem_cons_of_mem k hx))
    simp only [List.map_cons, List.cons_append, sign_setup_loop]
    rcases hk with hk | ⟨P, X, hP, hX, hr⟩
    · rw [if_pos (by simp [BN_is_zero, hk])]
      exact ih1
    · unfold affine_x at hX
      by_cases hz : BN_is_zero k = true
      · rw [if_pos hz]; exact ih1
      · rw [if_neg hz]
        simp only [hP, hX, hr]
        rw [if_pos (by simp [BN_is_zero])]
        exact ih1

/-- The loop of `ecdsa_sign_setup` on a failing draw stops there with the
reason of the failure, or, when only the inversion fails, leaves with the
pair of that draw. -/
theorem sign_setup_loop_failed (B : BN_LIB) (group : EC_GROUP Pt) (order : Int)
    (draw : Option Int) (rest : List (Option Int)) (e : ErrReason)
    (h : FailedDraw B group order draw e) :
    sign_setup_loop B group order (draw :: rest) = Run.done (Drawn.fail e, rest) ∨
    ∃ k r, B.BN_mod_inverse k order = none ∧ e = ErrReason.ERR_R_BN_LIB ∧
      sign_setup_loop B group order (draw :: rest) = Run.done (Drawn.pair k r, rest) := by
  rcases h with ⟨hd, he⟩ | ⟨k, hd, hk, h⟩
  · subst hd; subst he
    left; rfl
  · subst hd
    have hz : ¬ BN_is_zero k = true := by simp [BN_is_zero, hk]
    simp only [sign_setup_loop, if_neg hz]
    rcases h with ⟨hP, he⟩ | ⟨P, hP, h⟩
    · left; simp only [hP, he]
    · simp only [hP]
      unfold affine_x at h
      rcases h with ⟨hX, he⟩ | ⟨X, hX, h⟩
      · left; simp only [hX, he]
      · simp only [hX]
        rcases h with ⟨hr, he⟩ | ⟨r, hr, hr0, hinv, he⟩
        · left; simp only [hr, he]
        · right
          refine ⟨k, r, hinv, he, ?_⟩
          simp only [hr]
          rw [if_neg (by simp [BN_is_zero, hr0])]

/-- C13: failures propagate.  On a complete key, when the draw that follows
the redrawn ones fails (the random draw, the point multiplication, the
coordinate extraction, the modular reduction or the modular inversion),
`ecdsa_sign_setup` returns 0 with the reason of that failure, consumes no
draw after the failing one and leaves the output slots as they were; and in
any pass of the signing loop that calls the setup, a setup that returns 0
makes `ecdsa_do_sign` return `NULL` with the draws the setup left, also in the
first pass of a call on a key whose cache is not full. -/
theorem failures_propagate (B : BN_LIB) (key : EC_KEY Pt) (group : EC_GROUP Pt) (Q : Pt)
    (d : Int) (data : ECDSA_DATA) (n : Nat)
    (hg : key.group = some group) (hQ : key.pub_key = some Q) (hd : key.priv_key = some d)
    (hdata : key.meth_data = some data) (hn : group.EC_GROUP_get_order = some n)
    (kinvp rp : Option Int) (pre : List Int) (draw : Option Int) (rest : List (Option Int))
    (e : ErrReason) (hpre : ∀ k ∈ pre, Redrawn B group n k)
    (hfail : FailedDraw B group n draw e) :
    ecdsa_sign_setup B (some key) kinvp rp (pre.map some ++ draw :: rest) =
      Run.done ⟨0, kinvp, rp, rest, [(ErrFunc.ECDSA_F_ECDSA_SIGN_SETUP, e)]⟩ ∧
    (∀ (m : Int) (fuel : Nat) (st : SignState) (su : SetupResult), ¬ st.ecdsa.full →
      ECDSA_sign_setup B (some key) st.kinv st.r st.rand = Run.done su → su.ret = 0 →
      do_sign_loop B key d n m (fuel + 1) st =
        Run.done ⟨none, some st.ecdsa, su.rand,
          su.err ++ [(ErrFunc.ECDSA_F_ECDSA_DO_SIGN, ErrReason.ERR_R_ECDSA_LIB)]⟩) ∧
    (∀ dgst : List (Fin 256), dgst.length ≤ BN_num_bytes n → ¬ data.full →
      ecdsa_do_sign B dgst (some key) (pre.map some ++ draw :: rest) =
        Run.done ⟨none, some data, rest,
          [(ErrFunc.ECDSA_F_ECDSA_SIGN_SETUP, e),
           (ErrFunc.ECDSA_F_ECDSA_DO_SIGN, ErrReason.ERR_R_ECDSA_LIB)]⟩) := by
  have hsetup : ∀ kp rpp : Option Int,
      ecdsa_sign_setup B (some key) kp rpp (pre.map some ++ draw :: rest) =
        Run.done ⟨0, kp, rpp, rest, [(ErrFunc.ECDSA_F_ECDSA_SIGN_SETUP, e)]⟩ := by
    intro kp rpp
    unfold ecdsa_sign_setup
    simp only [hg, hQ, hd, hn]
    rw [sign_setup_loop_skip B group n (draw :: rest) pre hpre]
    rcases sign_setup_loop_failed B group n draw rest e hfail with hl | ⟨k, r, hinv, he, hl⟩
    · rw [hl]
    · rw [hl]
      simp only [hinv, he]
  have hloop : ∀ (m : Int) (fuel : Nat) (st : SignState) (su : SetupResult), ¬ st.ecdsa.full →
      ECDSA_sign_setup B (some key) st.kinv st.r st.rand = Run.done su → su.ret = 0 →
      do_sign_loop B key d n m (fuel + 1) st =
        Run.done ⟨none, some st.ecdsa, su.rand,
          su.err ++ [(ErrFunc.ECDSA_F_ECDSA_DO_SIGN, ErrReason.ERR_R_ECDSA_LIB)]⟩ := by
    intro m fuel st su hc hsu hret
    simp only [do_sign_loop]
    rcases sign_body_fresh B key d n m st hc with hb | ⟨su1, hsu1, hb | hb⟩
    · unfold sign_body at hb
      rw [if_pos (by unfold ECDSA_DATA.full at hc; exact not_not.mp hc), hsu] at hb
      simp only [hret, if_true] at hb
      exact absurd hb (by simp)
    · rw [hsu] at hsu1
      cases hsu1
      rw [hb.2]
    · rw [hsu] at hsu1
      cases hsu1
      exact absurd hret hb.1
  refine ⟨hsetup kinvp rp, hloop, ?_⟩
  intro dgst hlen hc
  rw [ecdsa_do_sign_valid B dgst key group Q d data n hg hQ hd hdata hn hlen]
  have h1 := hloop (BN_bin2bn dgst) ((pre.map some ++ draw :: rest).length + 1)
    ⟨data, none, none, pre.map some ++ draw :: rest⟩ _ hc (hsetup none none) rfl
  exact h1

/-- C13 at a concrete input on the 17-point curve group: after the redrawn 0
and 6 the random source fails; the setup returns 0 with its slots untouched
and the draw 5 unread, and the signing call returns `NULL`. -/
theorem failures_propagate_witness :
    ecdsa_sign_setup refBN (some (curveKey 7 ⟨none, none⟩)) (some 4) none
        ([0, 6].map some ++ none :: [some 5]) =
      Run.done ⟨0, some 4, none, [some 5],
        [(ErrFunc.ECDSA_F_ECDSA_SIGN_SETUP,
          ErrReason.ECDSA_R_RANDOM_NUMBER_GENERATION_FAILED)]⟩ ∧
    ecdsa_do_sign refBN [5] (some (curveKey 7 ⟨none, none⟩))
        ([0, 6].map some ++ none :: [some 5]) =
      Run.done ⟨none, some ⟨none, none⟩, [some 5],
        [(ErrFunc.ECDSA_F_ECDSA_SIGN_SETUP,
          ErrReason.ECDSA_R_RANDOM_NUMBER_GENERATION_FAILED),
         (ErrFunc.ECDSA_F_ECDSA_DO_SIGN, ErrReason.ERR_R_ECDSA_LIB)]⟩ :=
  have h := failures_propagate refBN (curveKey 7 ⟨none, none⟩) curveGroup (7 : ZMod 17) 7
    ⟨none, none⟩ 17 rfl rfl rfl rfl rfl (some 4) none [0, 6] none [some 5]
    ErrReason.ECDSA_R_RANDOM_NUMBER_GENERATION_FAILED
    (by
      intro k hk
      simp only [List.mem_cons, List.mem_singleton, List.not_mem_nil, or_false] at hk
      rcases hk with hk | hk
      · exact Or.inl hk
      · subst hk
        exact Or.inr ⟨(6 : ZMod 17), 17, by decide, by decide, by decide⟩)
    (Or.inl ⟨rfl, rfl⟩)
  ⟨h.1, h.2.2 [5] (by decide) (by simp [ECDSA_DATA.full])⟩

end Propagation

section RejectionSampling

variable {Pt : Type}

/-- C15: rejection sampling in the generator.  On a group of prime order `n`
with no library failure, let the draws be `pre`, then `k`, then `rest`, where
every draw of `pre` is zero or has `x(k_j*G) mod n = 0` and `k` in `[1, n-1]`
is the first draw with `x(k*G) mod n ≠ 0`.  Then `ecdsa_sign_setup` returns 1
having consumed exactly the draws up to `k`; it stores `r = x(k*G) mod n` and
the inverse `kinv` of `k` modulo `n`, the same result as on the draws
`k, rest` alone, whatever `pre` is. -/
theorem rejection_sampling [AddCommGroup Pt] (B : BN_LIB) (hB : B.Sound) (hT : B.Total)
    (group : EC_GROUP Pt) (G : Pt) (n : Nat) (hL : group.Lawful G n) (hp : n.Prime)
    (key : EC_KEY Pt) (Q : Pt) (d : Int)
    (hg : key.group = some group) (hQ : key.pub_key = some Q) (hd : key.priv_key = some d)
    (kinvp rp : Option Int) (pre : List Int) (k : Int) (rest : List (Option Int)) (X : Int)
    (hpre : ∀ kj ∈ pre, kj = 0 ∨ ∃ Xj, affine_x group (kj • G) = some Xj ∧ Xj % n = 0)
    (hk : 1 ≤ k ∧ k ≤ n - 1) (hX : affine_x group (k • G) = some X) (hr : X % n ≠ 0) :
    ∃ kinv : Int, 0 ≤ kinv ∧ kinv < n ∧ (kinv * k) % n = 1 ∧
      ecdsa_sign_setup B (some key) kinvp rp (pre.map some ++ some k :: rest) =
        Run.done ⟨1, some kinv, some (X % n), rest, []⟩ ∧
      ecdsa_sign_setup B (some key) kinvp rp (some k :: rest) =
        Run.done ⟨1, some kinv, some (X % n), rest, []⟩ := by
  have hn0 : (n : Int) ≠ 0 := by omega
  have hnpos : (0 : Int) < n := by omega
  have hn2 : (2 : Int) ≤ n := by exact_mod_cast hp.two_le
  have h1n : (1 : Int) % n = 1 := Int.emod_eq_of_lt (by omega) (by omega)
  have hnn : ∀ a : Int, B.BN_nnmod a n = some (a % n) := by
    intro a
    obtain ⟨r, hr1⟩ := hT.nnmod a n hn0
    rw [hr1, (hB.nnmod _ _ _ hr1).2]
  obtain ⟨kinv, hkinv⟩ := hT.mod_inverse k n hnpos
    (gcd_eq_one_of_lt_prime k n hp (by omega) (by omega))
  obtain ⟨-, hk0, hk1, hkk⟩ := hB.mod_inverse _ _ _ hkinv
  rw [abs_of_pos hnpos] at hk1
  rw [h1n, mul_comm] at hkk
  have hred : ∀ kj ∈ pre, Redrawn B group n kj := by
    intro kj hkj
    rcases hpre kj hkj with h0 | ⟨Xj, hXj, hz⟩
    · exact Or.inl h0
    · exact Or.inr ⟨kj • G, Xj, hL.mul_gen kj, hXj, by rw [hnn, hz]⟩
  have hloop : sign_setup_loop B group n (some k :: rest) =
      Run.done (Drawn.pair k (X % n), rest) := by
    have hz : ¬ BN_is_zero k = true := by
      simp only [BN_is_zero, decide_eq_true_eq]; omega
    unfold affine_x at hX
    simp only [sign_setup_loop, if_neg hz, hL.mul_gen, hX, hnn]
    rw [if_neg (by simp only [BN_is_zero, decide_eq_true_eq]; exact hr)]
  refine ⟨kinv, hk0, hk1, hkk, ?_, ?_⟩
  · unfold ecdsa_sign_setup
    simp only [hg, hQ, hd, hL.order_eq]
    rw [sign_setup_loop_skip B group n (some k :: rest) pre hred, hloop]
    simp only [hkinv]
  · unfold ecdsa_sign_setup
    simp only [hg, hQ, hd, hL.order_eq]
    rw [hloop]
    simp only [hkinv]

/-- C15 at a concrete input on the 17-point curve group: the draws 0, 6 and
11 are discarded (`x(6*G) = x(11*G) = 17`), the draw 5 gives
`r = 8` and `kinv = 7`, and the draw 9 is left. -/
theorem rejection_sampling_witness :
    ∃ kinv : Int, 0 ≤ kinv ∧ kinv < (17 : Nat) ∧ (kinv * 5) % (17 : Nat) = 1 ∧
      ecdsa_sign_setup refBN (some (curveKey 7 ⟨none, none⟩)) none none
          ([0, 6, 11].map some ++ some 5 :: [some 9]) =
        Run.done ⟨1, some kinv, some (8 % (17 : Nat)), [some 9], []⟩ ∧
      ecdsa_sign_setup refBN (some (curveKey 7 ⟨none, none⟩)) none none
          (some 5 :: [some 9]) =
        Run.done ⟨1, some kinv, some (8 % (17 : Nat)), [some 9], []⟩ :=
  rejection_sampling refBN refBN_sound refBN_total curveGroup (1 : ZMod 17) 17
    curveGroup_lawful (by norm_num) (curveKey 7 ⟨none, none⟩) (7 : ZMod 17) 7 rfl rfl rfl
    none none [0, 6, 11] 5 [some 9] 8
    (by
      intro kj hkj
      simp only [List.mem_cons, List.mem_singleton, List.not_mem_nil, or_false] at hkj
      rcases hkj with h | h | h
      · exact Or.inl h
      · subst h; exact Or.inr ⟨17, by decide, by decide⟩
      · subst h; exact Or.inr ⟨17, by decide, by decide⟩)
    (by decide) (by decide) (by decide)

end RejectionSampling

section Retry

variable {Pt : Type}

/-- The setup reads only the group, the public point and the private scalar
of the key, and its output slots only matter when it fails: on another key
with the same three fields and other slot contents the outcome is the same,
except that a failing call hands back the slot contents it was given. -/
theorem ecdsa_sign_setup_congr (B : BN_LIB) (key key2 : EC_KEY Pt)
    (hg : key2.group = key.group) (hQ : key2.pub_key = key.pub_key)
    (hd : key2.priv_key = key.priv_key) (kp rp kp2 rp2 : Option Int)
    (rand : List (Option Int)) :
    ecdsa_sign_setup B (some key2) kp2 rp2 rand =
      match ecdsa_sign_setup B (some key) kp rp rand with
      | Run.starved => Run.starved
      | Run.done su =>
          Run.done (if su.ret = 0 then ⟨0, kp2, rp2, su.rand, su.err⟩ else su) := by
  unfold ecdsa_sign_setup
  simp only [hg, hQ, hd]
  rcases key.group with _ | group
  · simp
  rcases key.pub_key with _ | Q
  · simp
  rcases key.priv_key with _ | d
  · simp
  simp only
  rcases group.EC_GROUP_get_order with _ | order
  · simp
  simp only
  rcases sign_setup_loop B group (order : Int) rand with ⟨x, rest⟩ | _
  · rcases x with ⟨k, r⟩ | e
    · simp only
      rcases B.BN_mod_inverse k (order : Int) with _ | kinv
      · simp
      · simp
    · simp
  · simp

/-- A pass whose product is zero sends the loop round again. -/
theorem sign_arith_again (B : BN_LIB) (d n m : Int) (st : SignState) (kinv r tmp : Int)
    (htmp : B.BN_mod_mul d r n = some tmp)
    (hs : B.BN_mod_mul (sign_sum tmp m n) kinv n = some 0) :
    sign_arith B d n m st kinv r = SignStep.again st := by
  unfold sign_arith
  simp only [htmp, hs]
  rw [if_pos (by simp [BN_is_zero])]

/-- A pass whose product is not zero leaves the loop with `(r, s)`. -/
theorem sign_arith_leave (B : BN_LIB) (d n m : Int) (st : SignState) (kinv r tmp s : Int)
    (htmp : B.BN_mod_mul d r n = some tmp)
    (hs : B.BN_mod_mul (sign_sum tmp m n) kinv n = some s) (hs0 : s ≠ 0) :
    sign_arith B d n m st kinv r = SignStep.leave st r s := by
  unfold sign_arith
  simp only [htmp, hs]
  rw [if_neg (by simp [BN_is_zero, hs0])]

/-- The signing loop does not depend on the locals `kinv` and `r` it starts
with, nor on fields of the key other than group, public point and private
scalar. -/
theorem do_sign_loop_congr (B : BN_LIB) (key key2 : EC_KEY Pt)
    (hg : key2.group = key.group) (hQ : key2.pub_key = key.pub_key)
    (hd : key2.priv_key = key.priv_key) (d n m : Int) :
    ∀ (fuel : Nat) (st st2 : SignState), st2.ecdsa = st.ecdsa → st2.rand = st.rand →
      do_sign_loop B key2 d n m fuel st2 = do_sign_loop B key d n m fuel st := by
  intro fuel
  induction fuel with
  | zero => intro st st2 _ _; rfl
  | succ fuel ih =>
    intro st st2 he hr
    simp only [do_sign_loop]
    by_cases hc : st.ecdsa.full
    · obtain ⟨kinv0, r0, hdat⟩ : ∃ kinv0 r0, st.ecdsa = ⟨some kinv0, some r0⟩ := by
        rcases hst : st.ecdsa with ⟨_ | a, _ | b⟩
        · rw [hst] at hc; exact absurd hc (by simp [ECDSA_DATA.full])
        · rw [hst] at hc; exact absurd hc (by simp [ECDSA_DATA.full])
        · rw [hst] at hc; exact absurd hc (by simp [ECDSA_DATA.full])
        · exact ⟨a, b, rfl⟩
      rw [sign_body_cached B key d n m st kinv0 r0 hdat,
        sign_body_cached B key2 d n m st2 kinv0 r0 (he.trans hdat), hr]
      rcases sign_arith_cases B d n m ⟨⟨none, none⟩, some kinv0, some r0, st.rand⟩ kinv0 r0
        with ha | ⟨e1, ha⟩ | ⟨s, ha, -⟩
      · rw [ha]
        exact ih _ _ rfl rfl
      · rw [ha]
      · rw [ha]
    · have hc1 : st.ecdsa.kinv = none ∨ st.ecdsa.r = none := by
        unfold ECDSA_DATA.full at hc
        exact not_not.mp hc
      have hc2 : st2.ecdsa.kinv = none ∨ st2.ecdsa.r = none := by rw [he]; exact hc1
      have hcon := ecdsa_sign_setup_congr B key key2 hg hQ hd st.kinv st.r st2.kinv st2.r st.rand
      unfold sign_body
      rw [if_pos hc1, if_pos hc2]
      unfold ECDSA_sign_setup
      rw [hr, hcon]
      cases hsu : ecdsa_sign_setup B (some key) st.kinv st.r st.rand with
      | starved => rfl
      | done su =>
        simp only
        by_cases hret : su.ret = 0
        · simp only [hret, if_true, he]
        · obtain ⟨group, Q, d0, order, k, kinv, r, -, -, -, -, -, -, hsu1⟩ :=
            ecdsa_sign_setup_ok B key st.kinv st.r st.rand su hsu hret
          simp only [if_neg hret]
          rw [hsu1]
          simp only [he]
          rcases sign_arith_cases B d n m ⟨st.ecdsa, some kinv, some r, su.rand⟩ kinv r
            with ha | ⟨e1, ha⟩ | ⟨s, ha, -⟩
          · rw [ha]
            exact ih _ _ rfl rfl
          · rw [ha]
          · rw [ha]

end Retry
section RetryClaim

variable {Pt : Type}

/-- A pass that ends in `again` hands the loop on with one pass fewer. -/
theorem do_sign_loop_again (B : BN_LIB) (key : EC_KEY Pt) (d n m : Int) (fuel : Nat)
    (st st1 : SignState) (h : sign_body B key d n m st = SignStep.again st1) :
    do_sign_loop B key d n m (fuel + 1) st = do_sign_loop B key d n m fuel st1 := by
  simp only [do_sign_loop, h]

/-- A pass that ends in `leave` makes the loop return the signature. -/
theorem do_sign_loop_leave (B : BN_LIB) (key : EC_KEY Pt) (d n m : Int) (fuel : Nat)
    (st st1 : SignState) (r s : Int) (h : sign_body B key d n m st = SignStep.leave st1 r s) :
    do_sign_loop B key d n m (fuel + 1) st =
      Run.done ⟨some ⟨r, s⟩, some st1.ecdsa, st1.rand, []⟩ := by
  simp only [do_sign_loop, h]

/-- C16: retry on degenerate `s`.  On a complete key and a digest that is not
too long, take the pair `(kinv, r)` of the first pass of `ecdsa_do_sign`, from
the cache or from `ECDSA_sign_setup`, and let `s` be the second modular
product of that pass.  If `s = 0` the pair is dropped: the call behaves as a
call on the key with an empty cache (cached pair), or as a call on the draws
the setup left (fresh pair), and so takes its next pair from the setup.  If
`s ≠ 0` the call returns `(r, s)`, both halves from that pair. -/
theorem degenerate_s_retry (B : BN_LIB) (dgst : List (Fin 256)) (key : EC_KEY Pt)
    (group : EC_GROUP Pt) (Q : Pt) (d : Int) (data : ECDSA_DATA) (n : Nat)
    (hg : key.group = some group) (hQ : key.pub_key = some Q) (hd : key.priv_key = some d)
    (hdata : key.meth_data = some data) (hn : group.EC_GROUP_get_order = some n)
    (hlen : dgst.length ≤ BN_num_bytes n) (rand : List (Option Int))
    (kinv r tmp s : Int) (htmp : B.BN_mod_mul d r n = some tmp)
    (hs : B.BN_mod_mul (sign_sum tmp (BN_bin2bn dgst) n) kinv n = some s) :
    (data = ⟨some kinv, some r⟩ →
      (s = 0 → ecdsa_do_sign B dgst (some key) rand =
        ecdsa_do_sign B dgst
          (some ⟨key.group, key.pub_key, key.priv_key, some ⟨none, none⟩⟩) rand) ∧
      (s ≠ 0 → ecdsa_do_sign B dgst (some key) rand =
        Run.done ⟨some ⟨r, s⟩, some ⟨none, none⟩, rand, []⟩)) ∧
    (¬ data.full → ∀ rest : List (Option Int),
      ECDSA_sign_setup B (some key) none none rand =
        Run.done ⟨1, some kinv, some r, rest, []⟩ →
      (s = 0 → ecdsa_do_sign B dgst (some key) rand = ecdsa_do_sign B dgst (some key) rest) ∧
      (s ≠ 0 → ecdsa_do_sign B dgst (some key) rand =
        Run.done ⟨some ⟨r, s⟩, some data, rest, []⟩)) := by
  have hnf : ¬ (ECDSA_DATA.mk none none).full := by simp [ECDSA_DATA.full]
  constructor
  · intro hdat
    subst hdat
    rw [ecdsa_do_sign_valid B dgst key group Q d _ n hg hQ hd hdata hn hlen]
    have hstep : sign_body B key d n (BN_bin2bn dgst)
        ⟨⟨some kinv, some r⟩, none, none, rand⟩ =
        sign_arith B d n (BN_bin2bn dgst) ⟨⟨none, none⟩, some kinv, some r, rand⟩ kinv r :=
      sign_body_cached B key d n _ _ kinv r rfl
    constructor
    · intro hs0
      subst hs0
      rw [sign_arith_again B d n _ _ kinv r tmp htmp hs] at hstep
      rw [ecdsa_do_sign_valid B dgst ⟨key.group, key.pub_key, key.priv_key, some ⟨none, none⟩⟩
        group Q d ⟨none, none⟩ n hg hQ hd rfl hn hlen]
      rw [do_sign_loop_again B key d n _ (rand.length + 1) _ _ hstep]
      have hfuel := do_sign_loop_fuel B
        (EC_KEY.mk key.group key.pub_key key.priv_key (some ⟨none, none⟩)) d n (BN_bin2bn dgst)
        (rand.length + 1) ⟨⟨none, none⟩, none, none, rand⟩ (fun _ => le_refl _)
        (fun hf => absurd hf hnf) 1
      rw [hfuel]
      exact (do_sign_loop_congr B key
        (EC_KEY.mk key.group key.pub_key key.priv_key (some ⟨none, none⟩)) rfl rfl rfl d n
        (BN_bin2bn dgst) (rand.length + 1) ⟨⟨none, none⟩, some kinv, some r, rand⟩
        ⟨⟨none, none⟩, none, none, rand⟩ rfl rfl).symm
    · intro hs0
      rw [sign_arith_leave B d n _ _ kinv r tmp s htmp hs hs0] at hstep
      rw [do_sign_loop_leave B key d n _ (rand.length + 1) _ _ r s hstep]
  · intro hc rest hsetup
    rw [ecdsa_do_sign_valid B dgst key group Q d _ n hg hQ hd hdata hn hlen]
    have hc1 : data.kinv = none ∨ data.r = none := by
      unfold ECDSA_DATA.full at hc
      exact not_not.mp hc
    have hstep : sign_body B key d n (BN_bin2bn dgst) ⟨data, none, none, rand⟩ =
        sign_arith B d n (BN_bin2bn dgst) ⟨data, some kinv, some r, rest⟩ kinv r := by
      unfold sign_body
      rw [if_pos hc1, hsetup]
      simp
    constructor
    · intro hs0
      subst hs0
      rw [sign_arith_again B d n _ _ kinv r tmp htmp hs] at hstep
      rw [ecdsa_do_sign_valid B dgst key group Q d _ n hg hQ hd hdata hn hlen]
      rw [do_sign_loop_again B key d n _ (rand.length + 1) _ _ hstep]
      obtain ⟨pre, k, hpre⟩ := ecdsa_sign_setup_rest B key none none rand _ hsetup (by simp)
      simp only at hpre
      have hlen2 : rand.length + 1 = rest.length + 2 + pre.length := by
        rw [hpre]; simp; omega
      rw [hlen2, do_sign_loop_fuel B key d n (BN_bin2bn dgst) (rest.length + 2)
        ⟨data, some kinv, some r, rest⟩ (fun _ => by simp) (fun hf => absurd hf hc) pre.length]
      exact do_sign_loop_congr B key key rfl rfl rfl d n (BN_bin2bn dgst) (rest.length + 2)
        ⟨data, none, none, rest⟩ ⟨data, some kinv, some r, rest⟩ rfl rfl
    · intro hs0
      rw [sign_arith_leave B d n _ _ kinv r tmp s htmp hs hs0] at hstep
      rw [do_sign_loop_leave B key d n _ (rand.length + 1) _ _ r s hstep]

/-- C16 at a concrete input on the 17-point curve group with `d = 7` and the
digest `[5]`: the cached pair `(13, 9)` gives `tmp = 12`, the sum 17 and
`s = 0`, so the call equals the call on the key with an empty cache, which
draws the nonce 16 and returns `(3, 8)`. -/
theorem degenerate_s_retry_witness :
    ecdsa_do_sign refBN [5] (some (curveKey 7 ⟨some 13, some 9⟩)) [some 16] =
      ecdsa_do_sign refBN [5] (some (curveKey 7 ⟨none, none⟩)) [some 16] ∧
    ecdsa_do_sign refBN [5] (some (curveKey 7 ⟨none, none⟩)) [some 16] =
      Run.done ⟨some ⟨3, 8⟩, some ⟨none, none⟩, [], []⟩ :=
  ⟨((degenerate_s_retry refBN [5] (curveKey 7 ⟨some 13, some 9⟩) curveGroup (7 : ZMod 17) 7
      ⟨some 13, some 9⟩ 17 rfl rfl rfl rfl rfl (by decide) [some 16] 13 9 12 0
      (by decide) (by decide)).1 rfl).1 rfl,
   by decide⟩

end RetryClaim

section IntermediateSum

/-- C17, as stated, fails: on the 17-point curve group with `d = 7`, the
one-byte digest `[255]` and the nonce 16 (so `r = 3`, `kinv = 16`), the call
returns `(3, 13)`; `t = 7*3 mod 17 = 4`, and the value multiplied by `kinv` is
`4 + 255 - 17 = 242`, which is neither `(4 + 255) mod 17 = 4` nor below 17. -/
theorem sign_sum_not_reduced :
    ([255] : List (Fin 256)).length ≤ BN_num_bytes (17 : Nat) ∧
    ecdsa_do_sign refBN [255] (some (curveKey 7 ⟨none, none⟩)) [some 16] =
      Run.done ⟨some ⟨3, 13⟩, some ⟨none, none⟩, [], []⟩ ∧
    refBN.BN_mod_mul 7 3 17 = some 4 ∧
    sign_sum 4 (BN_bin2bn [255]) 17 = 242 ∧
    (4 + BN_bin2bn [255]) % 17 = 4 ∧
    ¬ ((242 : Int) < 17) ∧
    refBN.BN_mod_mul 242 16 17 = some 13 := by
  decide

/-- C17, amended: with `t = d*r mod n` and `h` the digest value, the value
that `ecdsa_do_sign` multiplies by `kinv` is congruent to `t + h` modulo `n`;
it equals `(t + h) mod n`, and so lies in `[0, n)`, when `t + h < 2n` and
`t + h ≠ n`. -/
theorem sign_sum_value (B : BN_LIB) (hB : B.Sound) (d r : Int) (n : Nat)
    (dgst : List (Fin 256)) (tmp : Int) (htmp : B.BN_mod_mul d r n = some tmp) :
    sign_sum tmp (BN_bin2bn dgst) n ≡ tmp + BN_bin2bn dgst [ZMOD n] ∧
    (tmp + BN_bin2bn dgst < 2 * n → tmp + BN_bin2bn dgst ≠ n →
      sign_sum tmp (BN_bin2bn dgst) n = (tmp + BN_bin2bn dgst) % n ∧
      0 ≤ sign_sum tmp (BN_bin2bn dgst) n ∧ sign_sum tmp (BN_bin2bn dgst) n < n) := by
  refine ⟨sign_sum_modEq _ _ _, ?_⟩
  intro h2 hne
  obtain ⟨hn0, ht⟩ := hB.mod_mul _ _ _ _ htmp
  have hnpos : (0 : Int) < n := by omega
  have ht0 : 0 ≤ tmp := by rw [ht]; exact Int.emod_nonneg _ hn0
  have hm0 : 0 ≤ BN_bin2bn dgst := by
    unfold BN_bin2bn
    have hfold : ∀ (l : List (Fin 256)) (acc : Int), 0 ≤ acc →
        0 ≤ l.foldl (fun acc b => acc * 256 + (b.val : Int)) acc := by
      intro l
      induction l with
      | nil => intro acc h; exact h
      | cons b l ih =>
        intro acc h
        simp only [List.foldl_cons]
        apply ih
        have : (0 : Int) ≤ (b.val : Int) := Int.natCast_nonneg _
        positivity
    exact hfold dgst 0 (le_refl _)
  generalize BN_bin2bn dgst = m at h2 hne hm0 ⊢
  unfold sign_sum BN_add BN_sub BN_cmp
  simp only
  by_cases hlt : tmp + m < n
  · rw [if_pos hlt]
    simp only [gt_iff_lt, Int.reduceNeg, Left.neg_pos_iff]
    rw [if_neg (by decide)]
    exact ⟨(Int.emod_eq_of_lt (by omega) hlt).symm, by omega, hlt⟩
  · rw [if_neg hlt, if_neg hne]
    simp only [gt_iff_lt, zero_lt_one, if_true]
    have e : (tmp + m) % n = (tmp + m - n) % n := by
      rw [Int.sub_emod, Int.emod_self, sub_zero, Int.emod_emod]
    rw [e, Int.emod_eq_of_lt (by omega) (by omega)]
    exact ⟨rfl, by omega, by omega⟩

/-- C17, amended, at a concrete input: `d = 7`, `r = 3`, `n = 17`, digest
`[15]`: `t = 4`, `t + h = 19`, and the value multiplied by `kinv` is 2. -/
theorem sign_sum_value_witness :
    refBN.BN_mod_mul 7 3 (17 : Nat) = some 4 ∧
    4 + BN_bin2bn [15] < 2 * (17 : Nat) ∧ 4 + BN_bin2bn [15] ≠ (17 : Nat) ∧
    sign_sum 4 (BN_bin2bn [15]) (17 : Nat) = (4 + BN_bin2bn [15]) % (17 : Nat) ∧
    0 ≤ sign_sum 4 (BN_bin2bn [15]) (17 : Nat) ∧
    sign_sum 4 (BN_bin2bn [15]) (17 : Nat) < (17 : Nat) :=
  ⟨by decide, by decide, by decide,
   (sign_sum_value refBN refBN_sound 7 3 17 [15] 4 (by decide)).2 (by decide) (by decide)⟩

end IntermediateSum
section PublicData

variable {Pt : Type}

/-- C18: verification consumes only public data.  Two keys with the same
group and the same public point, whatever their private scalars and nonce
caches, give the same result for every digest and signature; and the call
leaves the signature and the key, its nonce cache included, as they were. -/
theorem verify_public_only (B : BN_LIB) (dgst : List (Fin 256)) (sig : Option ECDSA_SIG)
    (key1 key2 : EC_KEY Pt) (hg : key1.group = key2.group)
    (hQ : key1.pub_key = key2.pub_key) :
    ecdsa_do_verify B dgst sig (some key1) = ecdsa_do_verify B dgst sig (some key2) ∧
    (ecdsa_do_verify_state B dgst sig (some key1)).2 = (sig, some key1) ∧
    ecdsa_check (ecdsa_do_verify_state B dgst sig (some key1)).2.2 = key1.meth_data := by
  refine ⟨?_, rfl, rfl⟩
  unfold ecdsa_do_verify
  cases sig with
  | none => rfl
  | some sg => simp only [hg, hQ]

/-- C18 at a concrete input on the 17-point curve group: the key with the
private scalar 7 and an empty cache and the key with no private scalar and the
cached pair `(13, 9)` verify `(3, 8)` alike, and the cache stays. -/
theorem verify_public_only_witness :
    ecdsa_do_verify refBN [5] (some ⟨3, 8⟩) (some (curveKey 7 ⟨none, none⟩)) =
      ecdsa_do_verify refBN [5] (some ⟨3, 8⟩)
        (some ⟨some curveGroup, some (7 : ZMod 17), none, some ⟨some 13, some 9⟩⟩) ∧
    ecdsa_do_verify refBN [5] (some ⟨3, 8⟩)
        (some ⟨some curveGroup, some (7 : ZMod 17), none, some ⟨some 13, some 9⟩⟩) = ⟨1, []⟩ ∧
    ecdsa_check (ecdsa_do_verify_state refBN [5] (some ⟨3, 8⟩)
        (some (EC_KEY.mk (some curveGroup) (some (7 : ZMod 17)) none
          (some ⟨some 13, some 9⟩)))).2.2 = some ⟨some 13, some 9⟩ :=
  ⟨(verify_public_only refBN [5] (some ⟨3, 8⟩) (curveKey 7 ⟨none, none⟩)
      ⟨some curveGroup, some (7 : ZMod 17), none, some ⟨some 13, some 9⟩⟩ rfl rfl).1,
   by decide, by decide⟩

end PublicData

section Malleability

variable {Pt : Type}

end Malleability

section DigestModN

variable {Pt : Type}

/-- Leading zero bytes do not change the integer a digest is read as. -/
theorem BN_bin2bn_zeros (z : Nat) (dgst : List (Fin 256)) :
    BN_bin2bn (List.replicate z 0 ++ dgst) = BN_bin2bn dgst := by
  unfold BN_bin2bn
  rw [List.foldl_append]
  have hz : ∀ z : Nat, (List.replicate z (0 : Fin 256)).foldl
      (fun acc b => acc * 256 + (b.val : Int)) 0 = 0 := by
    intro z
    induction z with
    | zero => rfl
    | succ z ih =>
      simp only [List.replicate_succ, List.foldl_cons]
      simpa using ih
  rw [hz]

/-- The verifier reads the digest only through `BN_bin2bn`. -/
theorem ecdsa_do_verify_bin2bn (B : BN_LIB) (dgst1 dgst2 : List (Fin 256))
    (sig : Option ECDSA_SIG) (eckey : Option (EC_KEY Pt))
    (h : BN_bin2bn dgst1 = BN_bin2bn dgst2) :
    ecdsa_do_verify B dgst1 sig eckey = ecdsa_do_verify B dgst2 sig eckey := by
  unfold ecdsa_do_verify
  rw [h]

/-- C20: the verifier has no digest-length limit and sees the digest only
modulo `n`.  With sound, non-failing arithmetic, two digests of any lengths
whose big-endian values are congruent modulo the group order give the same
result for every signature and public point; in particular leading zero
bytes, whatever their number, change nothing. -/
theorem verify_digest_mod_order (B : BN_LIB) (hB : B.Sound) (hT : B.Total)
    (dgst1 dgst2 : List (Fin 256)) (sig : Option ECDSA_SIG) (key : EC_KEY Pt)
    (group : EC_GROUP Pt) (n : Nat) (hg : key.group = some group)
    (hn : group.EC_GROUP_get_order = some n)
    (hcong : BN_bin2bn dgst1 ≡ BN_bin2bn dgst2 [ZMOD n]) :
    ecdsa_do_verify B dgst1 sig (some key) = ecdsa_do_verify B dgst2 sig (some key) ∧
    ∀ z : Nat, ecdsa_do_verify B (List.replicate z 0 ++ dgst1) sig (some key) =
      ecdsa_do_verify B dgst1 sig (some key) := by
  refine ⟨?_, fun z => ecdsa_do_verify_bin2bn B _ _ sig _ (BN_bin2bn_zeros z dgst1)⟩
  have hmul : ∀ w : Int, (n : Int) ≠ 0 →
      B.BN_mod_mul (BN_bin2bn dgst1) w n = B.BN_mod_mul (BN_bin2bn dgst2) w n := by
    intro w hn0
    obtain ⟨a, ha⟩ := hT.mod_mul (BN_bin2bn dgst1) w n hn0
    obtain ⟨b, hb⟩ := hT.mod_mul (BN_bin2bn dgst2) w n hn0
    rw [ha, hb, (hB.mod_mul _ _ _ _ ha).2, (hB.mod_mul _ _ _ _ hb).2]
    exact congrArg some (hcong.mul_right w)
  unfold ecdsa_do_verify
  cases sig with
  | none => rfl
  | some sg =>
    simp only [hg, hn]
    cases key.pub_key with
    | none => rfl
    | some Q =>
      simp only [hn]
      by_cases hr : (BN_is_zero sg.r || BN_get_sign sg.r || decide (BN_ucmp sg.r n ≥ 0)) = true
      · simp only [if_pos hr]
      · simp only [if_neg hr]
        by_cases hs :
            (BN_is_zero sg.s || BN_get_sign sg.s || decide (BN_ucmp sg.s n ≥ 0)) = true
        · simp only [if_pos hs]
        · simp only [if_neg hs]
          cases hinv : B.BN_mod_inverse sg.s n with
          | none => rfl
          | some w =>
            simp only
            rw [hmul w (hB.mod_inverse _ _ _ hinv).1]

/-- C20 at a concrete input on the 17-point curve group: the two-byte digest
`[0, 22]`, longer than the one byte of the order and with value
`22 = 5 + 17`, verifies `(3, 8)` exactly as the digest `[5]` does, although
`ecdsa_do_sign` refuses it. -/
theorem verify_digest_mod_order_witness :
    BN_bin2bn [5] ≡ BN_bin2bn [0, 22] [ZMOD (17 : Nat)] ∧
    BN_num_bytes (17 : Nat) < ([0, 22] : List (Fin 256)).length ∧
    ecdsa_do_verify refBN [0, 22] (some ⟨3, 8⟩) (some (curveKey 7 ⟨none, none⟩)) = ⟨1, []⟩ ∧
    ecdsa_do_verify refBN [5] (some ⟨3, 8⟩) (some (curveKey 7 ⟨none, none⟩)) =
      ecdsa_do_verify refBN [0, 22] (some ⟨3, 8⟩) (some (curveKey 7 ⟨none, none⟩)) ∧
    (ecdsa_do_sign refBN [0, 22] (some (curveKey 7 ⟨none, none⟩)) [some 16]) =
      Run.done ⟨none, some ⟨none, none⟩, [some 16],
        [(ErrFunc.ECDSA_F_ECDSA_DO_SIGN, ErrReason.ECDSA_R_DATA_TOO_LARGE_FOR_KEY_SIZE)]⟩ :=
  ⟨by decide, by decide, by decide,
   (verify_digest_mod_order refBN refBN_sound refBN_total [5] [0, 22] (some ⟨3, 8⟩)
     (curveKey 7 ⟨none, none⟩) curveGroup 17 rfl rfl (by decide)).1,
   by decide⟩

end DigestModN

end EcsOssl
